import Mathlib

/-!
Verification of `inferelator_ng/sparse_blocksparse.py`.

The numeric model: Python/NumPy floating point arithmetic is embedded as
exact arithmetic in a linear ordered field `α`.  The solver
(`MT_SBS_OneGene.updateS`, `updateB`, `fit`) and the importance rescaler
are translated generically; the model-selection grid
(`run_regression_EBIC_SS`) and the EBIC scorer, which use `log`, `sqrt`
and binomial coefficients, are instantiated at `ℝ`.

NumPy 2-d arrays become `List (List α)` (lists of rows); a
`(n_features × n_tasks)` coefficient matrix `S` is the list of its
`n_features` rows, each of length `n_tasks`.  Out-of-range reads default
to `0` (the theorems carry shape hypotheses wherever a claim needs
well-formed input).  The float literals `1e-2`, `0.1` of the source are
the exact constants `1/100`, `1/10` here.
-/

namespace Inferelator

/-- A matrix is a list of rows. -/
abbrev Mat (α : Type) := List (List α)

variable {α : Type} [LinearOrderedField α]

/-- Row `i` of a matrix (`M[i]` in NumPy). -/
def getRow (M : Mat α) (i : ℕ) : List α := M.getD i []

/-- Entry `M[i, j]`. -/
def getEntry (M : Mat α) (i j : ℕ) : α := (M.getD i []).getD j 0

/-- Column `j` of a matrix (`M[:, j]` in NumPy). -/
def getCol (M : Mat α) (j : ℕ) : List α := M.map (fun r => r.getD j 0)

/-- In-place row assignment `M[i, :] = v`. -/
def setRow (M : Mat α) (i : ℕ) (v : List α) : Mat α := M.set i v

/-- In-place column assignment `M[:, j] = v`. -/
def setCol (M : Mat α) (j : ℕ) (v : List α) : Mat α :=
  List.zipWith (fun i r => r.set j (v.getD i 0)) (List.range M.length) M

/-- Elementwise sum of two vectors (NumPy `a + b`). -/
def vecAdd (a b : List α) : List α := List.zipWith (· + ·) a b

/-- Elementwise difference of two matrices (NumPy `A - B`). -/
def matSub (A B : Mat α) : Mat α := List.zipWith (List.zipWith (· - ·)) A B

/-- Elementwise sum of two matrices (NumPy `A + B`). -/
def matAdd (A B : Mat α) : Mat α := List.zipWith vecAdd A B

/-- The all-zero `m × n` matrix (`np.zeros((m, n))`). -/
def zeros (m n : ℕ) : Mat α := List.replicate m (List.replicate n (0 : α))

/-- NumPy `np.sum(a * b)`: sum of the elementwise product. -/
def sumMul (a b : List α) : α := (List.zipWith (· * ·) a b).sum

/-- NumPy `np.sign`: `-1`, `0` or `1`. -/
def npSign (x : α) : α := if x < 0 then -1 else if x = 0 then 0 else 1

/-- NumPy `np.linalg.norm(v, 1)`: the l1 norm. -/
def l1norm (v : List α) : α := (v.map (fun x => |x|)).sum

/-- NumPy `np.max(np.abs(M))` (`0` for an empty matrix; all entries are
absolute values, so the `0` seed does not change the maximum on
nonempty input). -/
def maxAbs (M : Mat α) : α := ((M.map (fun r => r.map (fun x => |x|))).flatten).foldl max 0

/-- Running sums: NumPy `v.cumsum()`. -/
def cumsum (v : List α) : List α := (v.scanl (· + ·) 0).tail

/-- Scan of `np.argmax`: walk the remaining list keeping the index of the
current strict maximum (NumPy keeps the first occurrence of the
maximum, so a later equal value does not displace the current best). -/
def npArgmaxAux : List α → ℕ → ℕ → α → ℕ
  | [], _, best, _ => best
  | x :: xs, i, best, bestVal =>
    if bestVal < x then npArgmaxAux xs (i + 1) i x
    else npArgmaxAux xs (i + 1) best bestVal

/-- NumPy `np.argmax`: index of the first occurrence of the maximum
(`0` on the empty list, where NumPy would raise). -/
def npArgmax : List α → ℕ
  | [] => 0
  | x :: xs => npArgmaxAux xs 1 0 x

/-- NumPy `np.abs(v).argsort()[::-1]`: the indices of `v` ordered by
descending absolute value.  `np.argsort`'s default sort leaves the
relative order of tied keys unspecified; the model fixes ties by
original position (insertion sort is stable). -/
def argsortDescAbs (v : List α) : List ℕ :=
  List.insertionSort (fun i j => |v.getD j 0| ≤ |v.getD i 0|) (List.range v.length)

/-! ### `MT_SBS_OneGene.updateS`

Source lines 51-79: per task `k`, cycle through the predictors `j`,
compute the coordinate-descent coefficient `alpha` from the current
column (`s` with entry `j` zeroed) and soft-threshold it. -/

/-- Body of the `for j in range(self.n_features)` loop of `updateS` for
one task: `c = C[k]`, `d = D[k]`, `b = B[:,k]`, and `s` is the current
sparse column, updated in place entry by entry. -/
def updateS_task (n_features : ℕ) (c : List α) (d : Mat α) (b : List α) (lamS : α)
    (s : List α) : List α :=
  (List.range n_features).foldl (fun s j =>
    let s_tmp := s.set j 0
    let alpha : α :=
      if getEntry d j j = 0 then 0
      else (c.getD j 0 - sumMul (vecAdd b s_tmp) (getRow d j)) / getEntry d j j
    if alpha ≤ lamS then s.set j 0
    else s.set j (alpha - npSign alpha * lamS)) s

/-- `MT_SBS_OneGene.updateS` (source lines 51-79). -/
def updateS (n_tasks n_features : ℕ) (C : Mat α) (D : List (Mat α)) (B S : Mat α)
    (lamS : α) : Mat α :=
  (List.range n_tasks).foldl (fun S k =>
    setCol S k
      (updateS_task n_features (getRow C k) (D.getD k []) (getCol B k) lamS (getCol S k))) S

/-! ### `MT_SBS_OneGene.updateB`

Source lines 81-130: per predictor `j`, gather one unregularized
candidate coefficient per task (`alphas`), then apply the joint
l1/l∞ block shrinkage to the row `B[j, :]`. -/

/-- The candidate coefficients `alphas` for predictor `j` (source lines
92-106): per task `k`, zero the block-sparse entry `b_tmp[j]` and
compute the coordinate value from column `j` of `D[k]`
(`np.sum((b_tmp+s)*d[:,j])`), or `0` when `d[j,j] == 0`. -/
def updateB_alphas (n_tasks : ℕ) (C : Mat α) (D : List (Mat α)) (B S : Mat α)
    (j : ℕ) : List α :=
  (List.range n_tasks).map (fun k =>
    let c := getRow C k
    let d := D.getD k []
    let b := getCol B k
    let s := getCol S k
    let b_tmp := b.set j 0
    if getEntry d j j = 0 then 0
    else (c.getD j 0 - sumMul (vecAdd b_tmp s) (getCol d j)) / getEntry d j j)

/-- The local `sorted_alphas = alphas[indices]` of `updateB` (source
line 114): candidate values ordered by descending absolute value. -/
def sorted_alphas (alphas : List α) : List α :=
  (argsortDescAbs alphas).map (fun i => alphas.getD i 0)

/-- The local `m_star` of `updateB` (source line 115):
`np.argmax((np.abs(sorted_alphas).cumsum() - lamB) / (np.arange(n_tasks) + 1))`. -/
def m_star (n_tasks : ℕ) (lamB : α) (alphas : List α) : ℕ :=
  npArgmax ((List.range n_tasks).map (fun i =>
    ((cumsum ((sorted_alphas alphas).map (fun x => |x|))).getD i 0 - lamB) / ((i : α) + 1)))

/-- The local `new_weights` loop of `updateB` (source lines 117-126):
ranks above `m_star` keep their raw value, ranks at most `m_star` get
the common shrunk magnitude with their own sign. -/
def new_weights (n_tasks : ℕ) (lamB : α) (alphas : List α) : List α :=
  (List.range n_tasks).foldl (fun w k =>
    let idx := (argsortDescAbs alphas).getD k 0
    if m_star n_tasks lamB alphas < k then w.set idx ((sorted_alphas alphas).getD k 0)
    else
      let sign := npSign ((sorted_alphas alphas).getD k 0)
      let update_term := (((sorted_alphas alphas).map (fun x => |x|)).take
        (m_star n_tasks lamB alphas + 1)).sum - lamB
      w.set idx (sign / ((m_star n_tasks lamB alphas : ℕ) + 1 : α) * update_term))
    (List.replicate n_tasks 0)

/-- The new row `B[j, :]` from the candidates (source lines 107-128):
all zero when the l1 norm is at most `lamB`, otherwise the ranked
shrinkage `new_weights`. -/
def updateB_row (n_tasks : ℕ) (lamB : α) (alphas : List α) : List α :=
  if l1norm alphas ≤ lamB then List.replicate n_tasks 0
  else new_weights n_tasks lamB alphas

/-- `MT_SBS_OneGene.updateB` (source lines 81-130). -/
def updateB (n_tasks n_features : ℕ) (C : Mat α) (D : List (Mat α)) (B S : Mat α)
    (lamB : α) : Mat α :=
  (List.range n_features).foldl (fun B j =>
    setRow B j (updateB_row n_tasks lamB (updateB_alphas n_tasks C D B S j))) B

/-! ### `MT_SBS_OneGene.covariance_update_terms` and `fit` -/

/-- `MT_SBS_OneGene.covariance_update_terms` (source lines 32-48):
`C[k] = Y[k]ᵀ · X[k]` and `D[k] = X[k]ᵀ · X[k]`.  A response `Y[k]`
(a `samples × 1` array in the source) is modelled as a plain vector. -/
def covariance_update_terms (n_tasks n_features : ℕ) (X : List (Mat α))
    (Y : List (List α)) : Mat α × List (Mat α) :=
  ((List.range n_tasks).map (fun k =>
      (List.range n_features).map (fun j => sumMul (Y.getD k []) (getCol (X.getD k []) j))),
   (List.range n_tasks).map (fun k =>
      (List.range n_features).map (fun i =>
        (List.range n_features).map (fun j =>
          sumMul (getCol (X.getD k []) i) (getCol (X.getD k []) j)))))

/-- One pass of the `fit` loop body (source lines 152-154): `updateS`
then `updateB`, the latter seeing the freshly updated `S`. -/
def fitStep (n_tasks n_features : ℕ) (C : Mat α) (D : List (Mat α)) (lamB lamS : α)
    (SB : Mat α × Mat α) : Mat α × Mat α :=
  let S' := updateS n_tasks n_features C D SB.2 SB.1 lamS
  let B' := updateB n_tasks n_features C D SB.2 S' lamB
  (S', B')

/-- The `for n_iter in range(self.max_iter)` loop of `fit` (source lines
148-158), with the remaining iteration budget as fuel: run a step and
break as soon as `np.max(np.abs(W - W_old)) < self.tolerance` with
`W = S + B`. -/
def fitLoop (n_tasks n_features : ℕ) (C : Mat α) (D : List (Mat α)) (lamB lamS : α) :
    ℕ → Mat α × Mat α → Mat α × Mat α
  | 0, SB => SB
  | fuel + 1, SB =>
    let SB' := fitStep n_tasks n_features C D lamB lamS SB
    if maxAbs (matSub (matAdd SB'.1 SB'.2) (matAdd SB.1 SB.2)) < 1 / 100 then SB'
    else fitLoop n_tasks n_features C D lamB lamS fuel SB'

/-- Final cleanup of `fit` (source line 163): `W[np.abs(W) < 0.1] = 0`. -/
def thresholdW (W : Mat α) : Mat α :=
  W.map (fun r => r.map (fun w => if |w| < 1 / 10 then 0 else w))

/-- `MT_SBS_OneGene.fit` (source lines 132-165): compute `C`, `D` from
the data unless both are supplied, start `S`, `B` at zero unless both
warm starts are supplied, iterate `updateS`/`updateB` at most
`max_iter = 1000` times with tolerance `1e-2`, zero the small entries
of `W = S + B`, and return `(W, S, B)`. -/
def fit (n_tasks n_features : ℕ) (X : List (Mat α)) (Y : List (List α)) (lamB lamS : α)
    (C0 : Option (Mat α)) (D0 : Option (List (Mat α))) (S0 B0 : Option (Mat α)) :
    Mat α × Mat α × Mat α :=
  let CD := match C0, D0 with
    | some C, some D => (C, D)
    | _, _ => covariance_update_terms n_tasks n_features X Y
  let SB : Mat α × Mat α := match S0, B0 with
    | some S, some B => (S, B)
    | _, _ => (zeros n_features n_tasks, zeros n_features n_tasks)
  let SBf := fitLoop n_tasks n_features CD.1 CD.2 lamB lamS 1000 SB
  (thresholdW (matAdd SBf.1 SBf.2), SBf.1, SBf.2)


/-- Convergence measure after `n` iterations: `np.max(np.abs(W - W_old))`
between iteration `n` and iteration `n + 1`, with `W = S + B`. -/
def fitDelta (n_tasks n_features : ℕ) (C : Mat α) (D : List (Mat α)) (lamB lamS : α)
    (SB : Mat α × Mat α) (n : ℕ) : α :=
  maxAbs (matSub
    (matAdd ((fitStep n_tasks n_features C D lamB lamS)^[n + 1] SB).1
            ((fitStep n_tasks n_features C D lamB lamS)^[n + 1] SB).2)
    (matAdd ((fitStep n_tasks n_features C D lamB lamS)^[n] SB).1
            ((fitStep n_tasks n_features C D lamB lamS)^[n] SB).2))

/-- State of `B` inside the `updateB` loop just before feature `j` is
processed: the rows of the features before `j` have already been
updated in place. -/
def updateB_upto (n_tasks : ℕ) (C : Mat α) (D : List (Mat α)) (S : Mat α) (lamB : α)
    (B : Mat α) (j : ℕ) : Mat α :=
  (List.range j).foldl (fun B j' =>
    setRow B j' (updateB_row n_tasks lamB (updateB_alphas n_tasks C D B S j'))) B

/-- One feature update of `updateS` written the way the specification
states it, with a mathematical sum in place of the NumPy elementwise
product: `alpha_j = (C_j - sum_i (B + S_with_j_zeroed)_i * D[j,i]) / D[j,j]`
(or `0` when `D[j,j] = 0`), then `S_j = 0` if `alpha_j <= lamS`, else
`S_j = alpha_j - sign(alpha_j) * lamS`. -/
def updateS_spec_step (n_features : ℕ) (c : List α) (d : Mat α) (b : List α) (lamS : α)
    (s : List α) (j : ℕ) : List α :=
  let alpha : α :=
    if getEntry d j j = 0 then 0
    else (c.getD j 0 - ∑ i ∈ Finset.range n_features,
        (b.getD i 0 + (s.set j 0).getD i 0) * getEntry d j i) / getEntry d j j
  if alpha ≤ lamS then s.set j 0 else s.set j (alpha - npSign alpha * lamS)

/-- Shape predicate: `M` is an `m × n` matrix. -/
def IsMat (m n : ℕ) (M : Mat α) : Prop := M.length = m ∧ ∀ r ∈ M, r.length = n

/-! ### `final_weights` (ImportanceRescaler), single-predictor branch -/

/-- NumPy `np.mean` (population mean; `0/0 = 0` junk value on empty
input, which NumPy would warn about). -/
def npMean (v : List α) : α := v.sum / (v.length : α)

/-- NumPy `np.var`: population variance, the mean of the squared
deviations from the mean. -/
def npVar (v : List α) : α := npMean (v.map (fun t => (t - npMean v) ^ 2))

/-- Population covariance of two equal-length vectors. -/
def npCov (x y : List α) : α :=
  npMean (List.zipWith (fun a b => (a - npMean x) * (b - npMean y)) x y)

/-- Slope fitted by `sklearn.linear_model.LinearRegression().fit(X, y)`
for a single predictor column `x` with an intercept: library code, so
modelled by its closed form — the unique least-squares slope
`cov(x, y) / var(x)` when `x` is not constant, and the minimum-norm
solution `0` for a constant column. -/
def ols1_slope (x y : List α) : α :=
  if npVar x = 0 then 0 else npCov x y / npVar x

/-- Intercept of the same single-predictor least-squares fit. -/
def ols1_intercept (x y : List α) : α := npMean y - ols1_slope x y * npMean x

/-- `ols.predict(X)` for the single-predictor fit. -/
def ols1_predict (x y : List α) : List α :=
  x.map (fun t => ols1_intercept x y + ols1_slope x y * t)

/-- The `n_preds == 1` branch of `final_weights` (source lines 302-306):
`var_full = np.var((y - ols.predict(X))**2)` — the variance of the
SQUARED residuals as written in the source — and
`resc_weights[0] = 1 - var_full / np.var(y)`. -/
def final_weights_single_resc (x y : List α) : α :=
  let var_full := npVar ((List.zipWith (fun a b => a - b) y (ols1_predict x y)).map
    (fun r => r ^ 2))
  1 - var_full / npVar y

/-! ### The model-selection layer of `run_regression_EBIC_SS`, over `ℝ`

The EBIC scorer and the penalty grids use `log`, `sqrt` and binomial
coefficients, so this layer is instantiated at `ℝ` (and is therefore
noncomputable; the claims about it are settled symbolically). -/

/-- One standardized value: z-score against a column's population mean
and standard deviation.  `StandardScaler` keeps a zero-variance column
centred (its `scale_` is set to `1`). -/
noncomputable def standardize_entry (col : List ℝ) (t : ℝ) : ℝ :=
  let sd := Real.sqrt (npVar col)
  (t - npMean col) / (if sd = 0 then 1 else sd)

/-- `StandardScaler().fit_transform` on a design matrix: z-score each
column. -/
noncomputable def standardize_mat (Xk : Mat ℝ) : Mat ℝ :=
  Xk.map (fun r => r.mapIdx (fun j t => standardize_entry (getCol Xk j) t))

/-- `StandardScaler().fit_transform` on a response vector. -/
noncomputable def standardize_vec (v : List ℝ) : List ℝ :=
  v.map (fun t => standardize_entry v t)

/-- `MT_SBS_OneGene.preprocess_data` (source lines 21-30): standardize
each task's design matrix and response. -/
noncomputable def preprocess_data (n_tasks : ℕ) (X : List (Mat ℝ)) (Y : List (List ℝ)) :
    List (Mat ℝ) × List (List ℝ) :=
  ((List.range n_tasks).map (fun k => standardize_mat (X.getD k [])),
   (List.range n_tasks).map (fun k => standardize_vec (Y.getD k [])))

/-- `sum_squared_erros` (source lines 258-262; the name's typo is the
source's): `np.sum((Y[k].T - np.dot(X[k], W[:,k]))**2)`. -/
noncomputable def sum_squared_erros (X : List (Mat ℝ)) (Y : List (List ℝ)) (W : Mat ℝ)
    (k : ℕ) : ℝ :=
  (List.zipWith (fun yv r => (yv - sumMul r (getCol W k)) ^ 2)
    (Y.getD k []) (X.getD k [])).sum

/-- `ebic` (source lines 265-284) with an explicit `gamma`: build the
per-task score list (`EBIC.append` in a loop), then take `np.mean`.
`comb(n_preds, nonzero_pred)` is the binomial coefficient and
`(W[:,k] != 0).sum()` the nonzero count of column `k`. -/
noncomputable def ebic_gamma (X : List (Mat ℝ)) (Y : List (List ℝ)) (W : Mat ℝ)
    (n_tasks : ℕ) (n_samples : List ℕ) (n_preds : ℕ) (gamma : ℝ) : ℝ :=
  npMean ((List.range n_tasks).foldl (fun EBIC k =>
    let n : ℝ := ((n_samples.getD k 0 : ℕ) : ℝ)
    let nonzero_pred : ℕ := (getCol W k).countP (fun w => decide (w ≠ 0))
    let RSS := sum_squared_erros X Y W k
    EBIC ++ [n * Real.log (RSS / n) + (nonzero_pred : ℝ) * Real.log n
      + 2 * gamma * Real.log ((Nat.choose n_preds nonzero_pred : ℕ) : ℝ)]) [])

/-- `ebic` with its default `gamma = 1`, as the grid search calls it
(source line 354). -/
noncomputable def ebic (X : List (Mat ℝ)) (Y : List (List ℝ)) (W : Mat ℝ)
    (n_tasks : ℕ) (n_samples : List ℕ) (n_preds : ℕ) : ℝ :=
  ebic_gamma X Y W n_tasks n_samples n_preds 1

/-- The outer grid `Cs = np.logspace(np.log10(0.01), np.log10(10), 20)[::-1]`
(source line 335): twenty log-spaced multipliers, traversed from `10`
down to `0.01`. -/
noncomputable def Cs_grid : List ℝ :=
  ((List.range 20).map (fun (i : ℕ) => (10 : ℝ) ^ ((-2 : ℝ) + 3 * (i : ℝ) / 19))).reverse

/-- The inner grid `Ss = np.linspace(0.51, 0.99, 10)[::-1]` (source
line 336): ten linearly spaced multipliers, traversed from `0.99` down
to `0.51`. -/
noncomputable def Ss_grid : List ℝ :=
  ((List.range 10).map (fun (i : ℕ) => (51 / 100 : ℝ) + (i : ℝ) * (48 / 100) / 9)).reverse

/-- `lamBparam = np.sqrt((n_tasks * np.log(n_preds)) / np.mean(n_samples))`
(source line 337). -/
noncomputable def lamBparam (n_tasks n_preds : ℕ) (n_samples : List ℕ) : ℝ :=
  Real.sqrt (((n_tasks : ℝ) * Real.log (n_preds : ℝ))
    / npMean (n_samples.map (fun n => (n : ℝ))))

/-- Loop state of the grid search: the best `(min_ebic, lamB, lamS,
outW)` found so far (`none` models the initial `min_ebic = Inf`, before
`lamB`, `lamS` and `outW` are first assigned) and the warm-started
`S`, `B`. -/
structure GridState where
  best : Option (ℝ × ℝ × ℝ × Mat ℝ)
  S : Mat ℝ
  B : Mat ℝ

/-- The `if ebic_score < min_ebic` update (source lines 355-359): every
score beats the initial `Inf`; on a tie the earlier minimum is kept
because the comparison is strict. -/
noncomputable def best_step (acc : Option (ℝ × ℝ × ℝ × Mat ℝ)) (x : ℝ × ℝ × ℝ × Mat ℝ) :
    Option (ℝ × ℝ × ℝ × Mat ℝ) :=
  match acc with
  | none => some x
  | some b => if x.1 < b.1 then some x else some b

/-- One grid point (source lines 349-359): fit with the warm-started
`S`, `B`, score the returned `W` with the default-`gamma` EBIC, and
keep the better score. -/
noncomputable def grid_point_step (n_tasks n_preds : ℕ) (X : List (Mat ℝ))
    (Y : List (List ℝ)) (C : Mat ℝ) (D : List (Mat ℝ)) (n_samples : List ℕ)
    (st : GridState) (lam : ℝ × ℝ) : GridState :=
  let WSB := fit n_tasks n_preds X Y lam.1 lam.2 (some C) (some D) (some st.S) (some st.B)
  let score := ebic X Y WSB.1 n_tasks n_samples n_preds
  { best := best_step st.best (score, lam.1, lam.2, WSB.1), S := WSB.2.1, B := WSB.2.2 }

/-- The nested grid loops of `run_regression_EBIC_SS` (source lines
347-359): `tmp_lamB = c * lamBparam`, `tmp_lamS = s * tmp_lamB`, with
`S`, `B` carried across the whole traversal. -/
noncomputable def run_grid (n_tasks n_preds : ℕ) (X : List (Mat ℝ)) (Y : List (List ℝ))
    (C : Mat ℝ) (D : List (Mat ℝ)) (n_samples : List ℕ) (init : GridState) : GridState :=
  Cs_grid.foldl (fun st c =>
    Ss_grid.foldl (fun st' s =>
      grid_point_step n_tasks n_preds X Y C D n_samples st'
        (c * lamBparam n_tasks n_preds n_samples,
         s * (c * lamBparam n_tasks n_preds n_samples))) st) init

/-- The 200 penalty pairs `(tmp_lamB, tmp_lamS)` in traversal order. -/
noncomputable def grid_lams (n_tasks n_preds : ℕ) (n_samples : List ℕ) : List (ℝ × ℝ) :=
  Cs_grid.flatMap (fun c => Ss_grid.map (fun s =>
    (c * lamBparam n_tasks n_preds n_samples,
     s * (c * lamBparam n_tasks n_preds n_samples))))

/-- The warm-started evaluation chain of the grid search: one
`(ebic score, lamB, lamS, W)` per grid point, with the solver state
`(S, B)` of each point passed on to the next. -/
noncomputable def grid_evals (n_tasks n_preds : ℕ) (X : List (Mat ℝ)) (Y : List (List ℝ))
    (C : Mat ℝ) (D : List (Mat ℝ)) (n_samples : List ℕ) :
    Mat ℝ × Mat ℝ → List (ℝ × ℝ) → List (ℝ × ℝ × ℝ × Mat ℝ)
  | _, [] => []
  | SB, lam :: rest =>
    let WSB := fit n_tasks n_preds X Y lam.1 lam.2 (some C) (some D) (some SB.1) (some SB.2)
    (ebic X Y WSB.1 n_tasks n_samples n_preds, lam.1, lam.2, WSB.1)
      :: grid_evals n_tasks n_preds X Y C D n_samples (WSB.2.1, WSB.2.2) rest

/-- The winning weight matrix `outW` of `run_regression_EBIC_SS`
(source lines 321-359): grid search over the preprocessed data (`[]`
in the unreachable case where no grid point was scored — the grid has
200 points and the first one always beats `Inf`). -/
noncomputable def run_regression_outW (X : List (Mat ℝ)) (Y : List (List ℝ)) : Mat ℝ :=
  let n_tasks := X.length
  let n_preds := ((X.getD 0 []).getD 0 []).length
  let n_samples := (List.range n_tasks).map (fun k => (X.getD k []).length)
  let XY := preprocess_data n_tasks X Y
  let CD := covariance_update_terms n_tasks n_preds XY.1 XY.2
  match (run_grid n_tasks n_preds XY.1 XY.2 CD.1 CD.2 n_samples
      ⟨none, zeros n_preds n_tasks, zeros n_preds n_tasks⟩).best with
  | some b => b.2.2.2
  | none => []

/-- Arguments of the `final_weights` call recorded per retained task:
the column-masked standardized design, the standardized response, the
mask-selected regulator labels and the gene.  `final_weights` itself
calls into sklearn (library code), so the model records the call. -/
structure FWArgs where
  Xsel : Mat ℝ
  y : List ℝ
  cTFs : List String
  gene : String

/-- Boolean mask selection `np.asarray(l)[mask]`, truncated to the
shorter length.  NumPy instead raises `IndexError` when the lengths
differ — a mismatch `run_regression_EBIC_SS` never checks for (claim
C9). -/
def mask_select {β : Type} (l : List β) (mask : List Bool) : List β :=
  ((List.zip l mask).filter (fun p => p.2)).map (fun p => p.1)

/-- `run_regression_EBIC_SS` (source lines 321-400): `n_preds` comes
from `X[0].shape[1]` alone — the `TFs` list is never validated against
it — then the data is standardized, the grid search selects `outW`,
and one `final_weights` record is emitted per input task index whose
`outW` column has a nonzero entry (`nonzero.sum() > 0`), plus the
gene. -/
noncomputable def run_regression_EBIC_SS (X : List (Mat ℝ)) (Y : List (List ℝ))
    (TFs : List String) (tasks : List ℕ) (gene : String) :
    List (ℕ × FWArgs) × String :=
  let XY := preprocess_data X.length X Y
  let outW := run_regression_outW X Y
  (tasks.filterMap (fun k =>
    let nonzero := (getCol outW k).map (fun w => decide (w ≠ 0))
    if nonzero.any (fun b => b) then
      some (k, ⟨(XY.1.getD k []).map (fun r => mask_select r nonzero),
        XY.2.getD k [], mask_select TFs nonzero, gene⟩)
    else none), gene)

/-! ### General lemmas about the `fit` loop -/

/-- Unfolding the loop when the convergence test succeeds: the loop
breaks and returns the freshly updated pair. -/
lemma fitLoop_succ_stop (n_tasks n_features : ℕ) (C : Mat α) (D : List (Mat α))
    (lamB lamS : α) (fuel : ℕ) (SB : Mat α × Mat α)
    (h : maxAbs (matSub
      (matAdd (fitStep n_tasks n_features C D lamB lamS SB).1
              (fitStep n_tasks n_features C D lamB lamS SB).2)
      (matAdd SB.1 SB.2)) < 1 / 100) :
    fitLoop n_tasks n_features C D lamB lamS (fuel + 1) SB
      = fitStep n_tasks n_features C D lamB lamS SB := by
  simp only [fitLoop]
  rw [if_pos h]

/-- Unfolding the loop when the convergence test fails: the loop
continues with the updated pair and one unit of fuel spent. -/
lemma fitLoop_succ_go (n_tasks n_features : ℕ) (C : Mat α) (D : List (Mat α))
    (lamB lamS : α) (fuel : ℕ) (SB : Mat α × Mat α)
    (h : ¬ maxAbs (matSub
      (matAdd (fitStep n_tasks n_features C D lamB lamS SB).1
              (fitStep n_tasks n_features C D lamB lamS SB).2)
      (matAdd SB.1 SB.2)) < 1 / 100) :
    fitLoop n_tasks n_features C D lamB lamS (fuel + 1) SB
      = fitLoop n_tasks n_features C D lamB lamS fuel
          (fitStep n_tasks n_features C D lamB lamS SB) := by
  simp only [fitLoop]
  rw [if_neg h]

/-- Shifting the start of the iteration shifts the convergence measure. -/
lemma fitDelta_shift (n_tasks n_features : ℕ) (C : Mat α) (D : List (Mat α))
    (lamB lamS : α) (SB : Mat α × Mat α) (n : ℕ) :
    fitDelta n_tasks n_features C D lamB lamS
        (fitStep n_tasks n_features C D lamB lamS SB) n
      = fitDelta n_tasks n_features C D lamB lamS SB (n + 1) := by
  simp only [fitDelta, ← Function.iterate_succ_apply]

/-- The loop with positive fuel runs the step function some number
`N ≥ 1` of times, breaking at the first `N` whose convergence measure
is below the tolerance, or exhausting the fuel. -/
lemma fitLoop_char (n_tasks n_features : ℕ) (C : Mat α) (D : List (Mat α))
    (lamB lamS : α) :
    ∀ (fuel : ℕ) (SB : Mat α × Mat α), 1 ≤ fuel →
    ∃ N, 1 ≤ N ∧ N ≤ fuel ∧
      fitLoop n_tasks n_features C D lamB lamS fuel SB
        = (fitStep n_tasks n_features C D lamB lamS)^[N] SB ∧
      (fitDelta n_tasks n_features C D lamB lamS SB (N - 1) < 1 / 100 ∨ N = fuel) ∧
      (∀ m, m + 1 < N → ¬ fitDelta n_tasks n_features C D lamB lamS SB m < 1 / 100) := by
  intro fuel
  induction fuel with
  | zero => intro SB h; omega
  | succ fuel ih =>
    intro SB _
    have hstep0 : fitDelta n_tasks n_features C D lamB lamS SB 0
        = maxAbs (matSub
          (matAdd (fitStep n_tasks n_features C D lamB lamS SB).1
                  (fitStep n_tasks n_features C D lamB lamS SB).2)
          (matAdd SB.1 SB.2)) := by
      simp [fitDelta]
    by_cases hc : maxAbs (matSub
        (matAdd (fitStep n_tasks n_features C D lamB lamS SB).1
                (fitStep n_tasks n_features C D lamB lamS SB).2)
        (matAdd SB.1 SB.2)) < 1 / 100
    · refine ⟨1, le_refl 1, by omega, ?_, ?_, ?_⟩
      · rw [fitLoop_succ_stop n_tasks n_features C D lamB lamS fuel SB hc]
        simp
      · left; rw [hstep0]; simpa using hc
      · intro m hm; omega
    · rcases Nat.eq_zero_or_pos fuel with hf | hf
      · subst hf
        refine ⟨1, le_refl 1, le_refl 1, ?_, Or.inr rfl, ?_⟩
        · rw [fitLoop_succ_go n_tasks n_features C D lamB lamS 0 SB hc]
          simp [fitLoop]
        · intro m hm; omega
      · obtain ⟨N, hN1, hNf, heq, hstop, hfirst⟩ :=
          ih (fitStep n_tasks n_features C D lamB lamS SB) hf
        refine ⟨N + 1, by omega, by omega, ?_, ?_, ?_⟩
        · rw [fitLoop_succ_go n_tasks n_features C D lamB lamS fuel SB hc, heq,
            ← Function.iterate_succ_apply]
        · rcases hstop with hs | hs
          · left
            have : N + 1 - 1 = (N - 1) + 1 := by omega
            rw [this, ← fitDelta_shift]
            exact hs
          · right; omega
        · intro m hm
          rcases Nat.eq_zero_or_pos m with hm0 | hm0
          · subst hm0; rw [hstep0]; exact hc
          · obtain ⟨m', rfl⟩ : ∃ m', m = m' + 1 := ⟨m - 1, by omega⟩
            rw [← fitDelta_shift]
            exact hfirst m' (by omega)

/-- Entrywise description of the final thresholding `W[np.abs(W) < 0.1] = 0`
(out-of-range entries read as `0` on both sides). -/
lemma getEntry_thresholdW (W : Mat α) (i j : ℕ) :
    getEntry (thresholdW W) i j
      = if |getEntry W i j| < 1 / 10 then 0 else getEntry W i j := by
  have houter : (W.map (List.map (fun w : α => if |w| < 1 / 10 then 0 else w))).getD i []
      = List.map (fun w : α => if |w| < 1 / 10 then 0 else w) (W.getD i []) := by
    simpa using List.getD_map W ([] : List α)
      (List.map (fun w : α => if |w| < 1 / 10 then 0 else w))
  have h0 := @List.getD_map α α (W.getD i []) 0 j (fun w : α => if |w| < 1 / 10 then 0 else w)
  rw [show (if |(0 : α)| < 1 / 10 then (0 : α) else 0) = 0 from by simp] at h0
  show ((W.map (List.map (fun w : α => if |w| < 1 / 10 then 0 else w))).getD i []).getD j 0 = _
  rw [houter, h0]
  rfl


/-! ### Claim C1 and C4: behaviour of `fit` -/

/-- Concrete evaluation helper: one solver step on the 1-task, 1-feature
problem `C = [[1/20]]`, `D = [[[1]]]`, `lamB = lamS = 0`, from the zero
start. -/
lemma fit_cex_step1 :
    fitStep 1 1 [[(1 : ℚ)/20]] [[[1]]] 0 0 ([[0]], [[0]]) = ([[1/20]], [[0]]) := by
  norm_num [fitStep, updateS, updateS_task, updateB, updateB_row, updateB_alphas,
    new_weights, sorted_alphas, m_star,
    setCol, setRow, getCol, getRow, getEntry, sumMul, vecAdd, npSign, l1norm, List.range_succ]

/-- Concrete evaluation helper: the same solver step is stationary at
`S = [[1/20]]`, `B = [[0]]`. -/
lemma fit_cex_step2 :
    fitStep 1 1 [[(1 : ℚ)/20]] [[[1]]] 0 0 ([[1/20]], [[0]]) = ([[1/20]], [[0]]) := by
  norm_num [fitStep, updateS, updateS_task, updateB, updateB_row, updateB_alphas,
    new_weights, sorted_alphas, m_star,
    setCol, setRow, getCol, getRow, getEntry, sumMul, vecAdd, npSign, l1norm, List.range_succ]

/-- Concrete evaluation helper: on this problem `fit` converges to
`S = [[1/20]]`, `B = [[0]]` and the final thresholding zeroes
`W = [[1/20]]`, so the returned triple is `([[0]], [[1/20]], [[0]])`. -/
lemma fit_cex_eval :
    fit 1 1 ([] : List (Mat ℚ)) [] 0 0 (some [[1/20]]) (some [[[1]]]) none none
      = ([[0]], [[1/20]], [[0]]) := by
  have h0 : (zeros 1 1 : Mat ℚ) = [[0]] := by norm_num [zeros]
  have e1 : fitLoop 1 1 [[(1 : ℚ)/20]] [[[1]]] 0 0 1000 ([[0]], [[0]])
      = fitLoop 1 1 [[(1 : ℚ)/20]] [[[1]]] 0 0 999 ([[1/20]], [[0]]) := by
    rw [show (1000 : ℕ) = 999 + 1 from rfl, fitLoop_succ_go, fit_cex_step1]
    rw [fit_cex_step1]
    norm_num [maxAbs, matSub, matAdd, vecAdd, le_abs]
  have e2 : fitLoop 1 1 [[(1 : ℚ)/20]] [[[1]]] 0 0 999 ([[1/20]], [[0]])
      = ([[1/20]], [[0]]) := by
    rw [show (999 : ℕ) = 998 + 1 from rfl, fitLoop_succ_stop, fit_cex_step2]
    rw [fit_cex_step2]
    norm_num [maxAbs, matSub, matAdd, vecAdd]
  show (let CD := (([[(1 : ℚ)/20]] : Mat ℚ), ([[[1]]] : List (Mat ℚ)));
        let SB : Mat ℚ × Mat ℚ := (zeros 1 1, zeros 1 1);
        let SBf := fitLoop 1 1 CD.1 CD.2 0 0 1000 SB;
        (thresholdW (matAdd SBf.1 SBf.2), SBf.1, SBf.2)) = ([[0]], [[1/20]], [[0]])
  simp only [h0, e1, e2]
  norm_num [thresholdW, matAdd, vecAdd, abs_lt]

/-- Claim C1, counterexample: on the 1-task, 1-feature problem with
`C = [[1/20]]`, `D = [[[1]]]`, `lamB = lamS = 0` and no warm start, the
triple `(W, S, B)` returned by `fit` has `W = [[0]]` but
`S + B = [[1/20]]`: after the final small-coefficient thresholding the
weight matrix `W` does NOT equal `S + B`. -/
theorem fit_W_ne_S_plus_B_after_threshold :
    ¬ ((fit 1 1 ([] : List (Mat ℚ)) [] 0 0 (some [[1/20]]) (some [[[1]]]) none none).1
        = matAdd (fit 1 1 ([] : List (Mat ℚ)) [] 0 0 (some [[1/20]]) (some [[[1]]]) none none).2.1
                 (fit 1 1 ([] : List (Mat ℚ)) [] 0 0 (some [[1/20]]) (some [[[1]]]) none none).2.2) := by
  rw [fit_cex_eval]
  norm_num [matAdd, vecAdd]

/-- Claim C1, amended: during the iteration `W` is read only as `S + B`
(the convergence measure `fitDelta` is defined from `S + B` on both
sides), but the `W` of the returned triple `(W, S, B)` is `S + B` with
every entry of absolute value below `0.1` zeroed, so it differs from
`S + B` wherever `S + B` has a nonzero entry smaller than `0.1` in
magnitude. -/
theorem fit_returns_thresholded_sum :
    ∀ (n_tasks n_features : ℕ) (X : List (Mat α)) (Y : List (List α)) (lamB lamS : α)
      (C0 : Option (Mat α)) (D0 : Option (List (Mat α))) (S0 B0 : Option (Mat α)),
      ∃ Sf Bf,
        fit n_tasks n_features X Y lamB lamS C0 D0 S0 B0
          = (thresholdW (matAdd Sf Bf), Sf, Bf) ∧
        ∀ i j, getEntry (fit n_tasks n_features X Y lamB lamS C0 D0 S0 B0).1 i j
          = if |getEntry (matAdd Sf Bf) i j| < 1 / 10 then 0
            else getEntry (matAdd Sf Bf) i j := by
  intro n_tasks n_features X Y lamB lamS C0 D0 S0 B0
  refine ⟨_, _, rfl, ?_⟩
  intro i j
  exact getEntry_thresholdW _ i j

/-- Claim C4: `fit` starts from the zero matrices unless both warm
starts are supplied, repeatedly applies `updateS` then `updateB`
(`fitStep`), stops at the first iteration count `N` whose update
`max |W_new - W_old|` (with `W = S + B`) is below the tolerance `1e-2`,
or after the cap of `1000` iterations, and finally returns
`(W, S, B)` with `W` the entrywise `0.1`-thresholding of `S + B`. -/
theorem fit_characterization :
    (∀ (n_tasks n_features : ℕ) (X : List (Mat α)) (Y : List (List α)) (lamB lamS : α)
        (C : Mat α) (D : List (Mat α)) (S0 B0 : Mat α),
      ∃ N SBN, SBN = (fitStep n_tasks n_features C D lamB lamS)^[N] (S0, B0) ∧
        1 ≤ N ∧ N ≤ 1000 ∧
        fit n_tasks n_features X Y lamB lamS (some C) (some D) (some S0) (some B0)
          = (thresholdW (matAdd SBN.1 SBN.2), SBN.1, SBN.2) ∧
        (fitDelta n_tasks n_features C D lamB lamS (S0, B0) (N - 1) < 1 / 100 ∨ N = 1000) ∧
        (∀ m, m + 1 < N →
          ¬ fitDelta n_tasks n_features C D lamB lamS (S0, B0) m < 1 / 100)) ∧
    (∀ (n_tasks n_features : ℕ) (C : Mat α) (D : List (Mat α)) (lamB lamS : α)
        (SB : Mat α × Mat α),
      fitStep n_tasks n_features C D lamB lamS SB
        = (updateS n_tasks n_features C D SB.2 SB.1 lamS,
           updateB n_tasks n_features C D SB.2
             (updateS n_tasks n_features C D SB.2 SB.1 lamS) lamB)) ∧
    (∀ (n_tasks n_features : ℕ) (X : List (Mat α)) (Y : List (List α)) (lamB lamS : α)
        (C : Mat α) (D : List (Mat α)),
      fit n_tasks n_features X Y lamB lamS (some C) (some D) none none
        = fit n_tasks n_features X Y lamB lamS (some C) (some D)
            (some (zeros n_features n_tasks)) (some (zeros n_features n_tasks))) ∧
    (∀ (n_tasks n_features : ℕ) (X : List (Mat α)) (Y : List (List α)) (lamB lamS : α)
        (C : Mat α) (D : List (Mat α)) (S0 : Mat α),
      fit n_tasks n_features X Y lamB lamS (some C) (some D) (some S0) none
        = fit n_tasks n_features X Y lamB lamS (some C) (some D)
            (some (zeros n_features n_tasks)) (some (zeros n_features n_tasks))) ∧
    (∀ (n_tasks n_features : ℕ) (X : List (Mat α)) (Y : List (List α)) (lamB lamS : α)
        (C : Mat α) (D : List (Mat α)) (B0 : Mat α),
      fit n_tasks n_features X Y lamB lamS (some C) (some D) none (some B0)
        = fit n_tasks n_features X Y lamB lamS (some C) (some D)
            (some (zeros n_features n_tasks)) (some (zeros n_features n_tasks))) ∧
    (∀ (W : Mat α) (i j : ℕ),
      getEntry (thresholdW W) i j
        = if |getEntry W i j| < 1 / 10 then 0 else getEntry W i j) := by
  refine ⟨?_, fun _ _ _ _ _ _ _ => rfl, fun _ _ _ _ _ _ _ _ => rfl,
    fun _ _ _ _ _ _ _ _ _ => rfl, fun _ _ _ _ _ _ _ _ _ => rfl,
    fun W i j => getEntry_thresholdW W i j⟩
  intro n_tasks n_features X Y lamB lamS C D S0 B0
  obtain ⟨N, hN1, hN1000, heq, hstop, hfirst⟩ :=
    fitLoop_char n_tasks n_features C D lamB lamS 1000 (S0, B0) (by norm_num)
  refine ⟨N, _, rfl, hN1, hN1000, ?_, hstop, hfirst⟩
  show (thresholdW (matAdd (fitLoop n_tasks n_features C D lamB lamS 1000 (S0, B0)).1
      (fitLoop n_tasks n_features C D lamB lamS 1000 (S0, B0)).2),
    (fitLoop n_tasks n_features C D lamB lamS 1000 (S0, B0)).1,
    (fitLoop n_tasks n_features C D lamB lamS 1000 (S0, B0)).2) = _
  rw [heq]

/-- Witness for C4: the characterization applied to the concrete
1-task, 1-feature input of the counterexample study. -/
theorem fit_characterization_witness :
    ∃ N SBN, SBN = (fitStep 1 1 [[(1 : ℚ)/20]] [[[1]]] 0 0)^[N] ([[0]], [[0]]) ∧
      1 ≤ N ∧ N ≤ 1000 ∧
      fit 1 1 ([] : List (Mat ℚ)) [] 0 0 (some [[1/20]]) (some [[[1]]]) (some [[0]]) (some [[0]])
        = (thresholdW (matAdd SBN.1 SBN.2), SBN.1, SBN.2) ∧
      (fitDelta 1 1 [[(1 : ℚ)/20]] [[[1]]] 0 0 ([[0]], [[0]]) (N - 1) < 1 / 100 ∨ N = 1000) ∧
      (∀ m, m + 1 < N → ¬ fitDelta 1 1 [[(1 : ℚ)/20]] [[[1]]] 0 0 ([[0]], [[0]]) m < 1 / 100) :=
  fit_characterization.1 1 1 [] [] 0 0 [[1/20]] [[[1]]] [[0]] [[0]]


/-! ### List and matrix access lemmas -/

section ListLemmas

variable {β γ δ : Type}

/-- Reading a just-written position. -/
lemma getD_set_self (l : List β) (j : ℕ) (a d : β) (h : j < l.length) :
    (l.set j a).getD j d = a := by
  rw [List.getD_eq_getElem _ _ (by simpa using h), List.getElem_set]
  simp

/-- Reading a position other than the written one. -/
lemma getD_set_ne (l : List β) (i j : ℕ) (a d : β) (h : i ≠ j) :
    (l.set i a).getD j d = l.getD j d := by
  rcases Nat.lt_or_ge j l.length with hj | hj
  · rw [List.getD_eq_getElem _ _ (by simpa using hj), List.getD_eq_getElem _ _ hj,
      List.getElem_set_ne h]
  · rw [List.getD_eq_getElem?_getD, List.getD_eq_getElem?_getD,
      List.getElem?_eq_none (by simpa using hj), List.getElem?_eq_none hj]

/-- Two folds agree when the step functions agree on the list members. -/
lemma foldl_congr_mem (f g : β → γ → β) (l : List γ) :
    ∀ b, (∀ b' x, x ∈ l → f b' x = g b' x) → l.foldl f b = l.foldl g b := by
  induction l with
  | nil => intro b _; rfl
  | cons x xs ih =>
    intro b h
    simp only [List.foldl_cons]
    rw [h b x (by simp)]
    exact ih _ (fun b' y hy => h b' y (by simp [hy]))

/-- A fold over `range l.length` reading `l` by index is a fold over `l`. -/
lemma foldl_range_getD (g : β → γ → β) (l : List γ) (d : γ) (b : β) :
    (List.range l.length).foldl (fun b' k => g b' (l.getD k d)) b = l.foldl g b := by
  induction l using List.reverseRecOn generalizing b with
  | nil => rfl
  | append_singleton l x ih =>
    rw [List.length_append, List.length_singleton, List.range_succ, List.foldl_append,
      List.foldl_append]
    have hmem : ∀ (b' : β) (k : ℕ), k ∈ List.range l.length →
        g b' ((l ++ [x]).getD k d) = g b' (l.getD k d) := by
      intro b' k hk
      rw [List.mem_range] at hk
      rw [List.getD_eq_getElem _ _ (by simp; omega), List.getElem_append_left hk,
        List.getD_eq_getElem _ _ hk]
    rw [foldl_congr_mem _ _ _ b hmem, ih]
    simp only [List.foldl_cons, List.foldl_nil]
    congr 1
    rw [List.getD_eq_getElem _ _ (by simp), List.getElem_append_right (le_refl _)]
    simp

end ListLemmas

/-- Sum of a list as a sum over its positions. -/
lemma sum_eq_sum_getD (l : List α) (n : ℕ) (h : l.length = n) :
    l.sum = ∑ i ∈ Finset.range n, l.getD i 0 := by
  induction n generalizing l with
  | zero => rw [List.eq_nil_of_length_eq_zero h]; simp
  | succ n ih =>
    rcases l with _ | ⟨x, xs⟩
    · simp at h
    · rw [Finset.sum_range_succ']
      simp only [List.getD_cons_succ, List.getD_cons_zero, List.sum_cons]
      rw [ih xs (by simpa using h)]
      ring

/-- `np.sum(a * c)` as a mathematical sum, for equal-length vectors. -/
lemma sumMul_eq_sum (a c : List α) (n : ℕ) (ha : a.length = n) (hc : c.length = n) :
    sumMul a c = ∑ i ∈ Finset.range n, a.getD i 0 * c.getD i 0 := by
  unfold sumMul
  rw [sum_eq_sum_getD _ n (by rw [List.length_zipWith, ha, hc]; exact min_self n)]
  refine Finset.sum_congr rfl (fun i hi => ?_)
  rw [Finset.mem_range] at hi
  rw [List.getD_eq_getElem _ _ (by rw [List.length_zipWith, ha, hc]; simpa using hi),
    List.getElem_zipWith, List.getD_eq_getElem _ _ (by omega),
    List.getD_eq_getElem _ _ (by omega)]

/-- The l1 norm as a mathematical sum. -/
lemma l1norm_eq_sum (l : List α) (n : ℕ) (h : l.length = n) :
    l1norm l = ∑ i ∈ Finset.range n, |l.getD i 0| := by
  unfold l1norm
  rw [sum_eq_sum_getD _ n (by simpa using h)]
  refine Finset.sum_congr rfl (fun i hi => ?_)
  rw [Finset.mem_range] at hi
  rw [List.getD_eq_getElem _ _ (by simpa [h] using hi), List.getElem_map,
    List.getD_eq_getElem _ _ (by omega)]

/-- Entry of an elementwise vector sum. -/
lemma vecAdd_getD (a b : List α) (i : ℕ) (ha : i < a.length) (hb : i < b.length) :
    (vecAdd a b).getD i 0 = a.getD i 0 + b.getD i 0 := by
  unfold vecAdd
  rw [List.getD_eq_getElem _ _ (by rw [List.length_zipWith]; omega), List.getElem_zipWith,
    List.getD_eq_getElem _ _ ha, List.getD_eq_getElem _ _ hb]

/-- A column entry is the corresponding matrix entry (out-of-range reads
are `0` on both sides). -/
lemma getCol_getD (M : Mat α) (j i : ℕ) : (getCol M j).getD i 0 = getEntry M i j := by
  unfold getCol getEntry
  simpa using @List.getD_map (List α) α M [] i (fun r => r.getD j 0)

/-- A column has one entry per row. -/
lemma length_getCol (M : Mat α) (j : ℕ) : (getCol M j).length = M.length := by
  simp [getCol]

/-- Row read-back after writing the same row. -/
lemma getRow_setRow_self (M : Mat α) (i : ℕ) (v : List α) (h : i < M.length) :
    getRow (setRow M i v) i = v := getD_set_self M i v [] h

/-- Row read-back after writing a different row. -/
lemma getRow_setRow_ne (M : Mat α) (i i' : ℕ) (v : List α) (h : i ≠ i') :
    getRow (setRow M i v) i' = getRow M i' := getD_set_ne M i i' v [] h

/-- Writing a column does not change the number of rows. -/
lemma length_setCol (M : Mat α) (k : ℕ) (v : List α) : (setCol M k v).length = M.length := by
  simp [setCol, List.length_zipWith]

/-- Rows of a column write, elementwise. -/
lemma getElem_setCol (M : Mat α) (k : ℕ) (v : List α) (i : ℕ)
    (h : i < (setCol M k v).length) (hM : i < M.length) :
    (setCol M k v)[i] = M[i].set k (v.getD i 0) := by
  unfold setCol
  rw [List.getElem_zipWith]
  congr 1
  rw [List.getElem_range]

/-- Reading back a freshly written column. -/
lemma getCol_setCol_self (M : Mat α) (k : ℕ) (v : List α)
    (hrows : ∀ r ∈ M, k < r.length) (hv : v.length = M.length) :
    getCol (setCol M k v) k = v := by
  apply List.ext_getElem
  · rw [length_getCol, length_setCol, hv]
  · intro i h1 h2
    have hi : i < (setCol M k v).length := by rwa [length_getCol] at h1
    have hiM : i < M.length := by rwa [length_setCol] at hi
    unfold getCol
    rw [List.getElem_map, getElem_setCol M k v i hi hiM]
    rw [getD_set_self _ _ _ _ (hrows _ (List.getElem_mem hiM))]
    exact List.getD_eq_getElem v 0 h2

/-- Reading a column other than the written one. -/
lemma getCol_setCol_ne (M : Mat α) (k' k : ℕ) (v : List α) (h : k' ≠ k) :
    getCol (setCol M k' v) k = getCol M k := by
  apply List.ext_getElem
  · rw [length_getCol, length_setCol, length_getCol]
  · intro i h1 h2
    have hi : i < (setCol M k' v).length := by rwa [length_getCol] at h1
    have hiM : i < M.length := by rwa [length_setCol] at hi
    unfold getCol
    rw [List.getElem_map, List.getElem_map, getElem_setCol M k' v i hi hiM]
    exact getD_set_ne _ _ _ _ _ h

/-- Writing any column preserves the shape. -/
lemma IsMat_setCol {m n : ℕ} {M : Mat α} (h : IsMat m n M) (k : ℕ) (v : List α) :
    IsMat m n (setCol M k v) := by
  refine ⟨by rw [length_setCol]; exact h.1, ?_⟩
  intro r hr
  obtain ⟨i, hi, rfl⟩ := List.mem_iff_getElem.1 hr
  rw [getElem_setCol M k v i hi (by rwa [length_setCol] at hi), List.length_set]
  exact h.2 _ (List.getElem_mem _)

/-- Writing a row of the right length preserves the shape. -/
lemma IsMat_setRow {m n : ℕ} {M : Mat α} (h : IsMat m n M) (i : ℕ) {v : List α}
    (hv : v.length = n) : IsMat m n (setRow M i v) := by
  refine ⟨by rw [setRow, List.length_set]; exact h.1, ?_⟩
  intro r hr
  rcases List.mem_or_eq_of_mem_set hr with hr' | rfl
  · exact h.2 _ hr'
  · exact hv


/-! ### Claim C6: `updateS` -/

/-- A fold congruence carrying an invariant of the accumulator. -/
lemma foldl_congr_inv {β γ : Type} (P : β → Prop) (f g : β → γ → β) (l : List γ) :
    ∀ b, P b → (∀ b' x, P b' → x ∈ l → f b' x = g b' x) →
      (∀ b' x, P b' → x ∈ l → P (f b' x)) → l.foldl f b = l.foldl g b := by
  induction l with
  | nil => intro b _ _ _; rfl
  | cons x xs ih =>
    intro b hb heq hP
    simp only [List.foldl_cons]
    have hgb : P (g b x) := by
      have := hP b x hb (by simp)
      rwa [heq b x hb (by simp)] at this
    rw [heq b x hb (by simp)]
    exact ih _ hgb (fun b' y hb' hy => heq b' y hb' (by simp [hy]))
      (fun b' y hb' hy => hP b' y hb' (by simp [hy]))

/-- The per-task sweep of `updateS` preserves the column length. -/
lemma updateS_task_length (n_features : ℕ) (c : List α) (d : Mat α) (b : List α)
    (lamS : α) (s : List α) :
    (updateS_task n_features c d b lamS s).length = s.length := by
  unfold updateS_task
  refine List.foldlRecOn (motive := fun s' => s'.length = s.length) _ _ s rfl ?_
  intro s' hs' j _
  dsimp only
  split <;> split <;> simp [List.length_set, hs']

/-- Column `k` of `updateS` is the task-`k` sweep run on column `k`,
computed from the untouched `B` and the original column of `S` (tasks
are updated independently). -/
lemma updateS_getCol (n_tasks n_features : ℕ) (C : Mat α) (D : List (Mat α)) (B S : Mat α)
    (lamS : α) {k : ℕ} (hS : IsMat n_features n_tasks S) (hk : k < n_tasks) :
    getCol (updateS n_tasks n_features C D B S lamS) k
      = updateS_task n_features (getRow C k) (D.getD k []) (getCol B k) lamS (getCol S k) := by
  unfold updateS
  rw [show n_tasks = (k + 1) + (n_tasks - (k + 1)) from by omega, List.range_add,
    List.foldl_append, List.range_succ, List.foldl_append]
  have h1 : IsMat n_features n_tasks ((List.range k).foldl (fun S' k' =>
      setCol S' k' (updateS_task n_features (getRow C k') (D.getD k' []) (getCol B k') lamS
        (getCol S' k'))) S)
      ∧ getCol ((List.range k).foldl (fun S' k' =>
        setCol S' k' (updateS_task n_features (getRow C k') (D.getD k' []) (getCol B k') lamS
          (getCol S' k'))) S) k = getCol S k := by
    refine List.foldlRecOn (motive := fun S' => IsMat n_features n_tasks S'
      ∧ getCol S' k = getCol S k) _ _ S ⟨hS, rfl⟩ ?_
    intro S' hS' k' hk'
    rw [List.mem_range] at hk'
    exact ⟨IsMat_setCol hS'.1 _ _, by rw [getCol_setCol_ne _ _ _ _ (by omega), hS'.2]⟩
  set S1 := (List.range k).foldl (fun S' k' =>
    setCol S' k' (updateS_task n_features (getRow C k') (D.getD k' []) (getCol B k') lamS
      (getCol S' k'))) S with hS1
  have h2 : getCol (setCol S1 k (updateS_task n_features (getRow C k) (D.getD k [])
      (getCol B k) lamS (getCol S1 k))) k
      = updateS_task n_features (getRow C k) (D.getD k []) (getCol B k) lamS (getCol S k) := by
    rw [getCol_setCol_self _ _ _ (fun r hr => by rw [h1.1.2 r hr]; exact hk)
      (by rw [updateS_task_length, length_getCol])]
    rw [h1.2]
  refine List.foldlRecOn (motive := fun S'' => getCol S'' k
      = updateS_task n_features (getRow C k) (D.getD k []) (getCol B k) lamS (getCol S k))
    _ _ _ (by simpa using h2) ?_
  intro S'' hS'' x hx
  obtain ⟨i, _, rfl⟩ := List.mem_map.1 hx
  rw [getCol_setCol_ne _ _ _ _ (by omega), hS'']

/-- The task sweep of `updateS` coincides with the specification-side
sweep `updateS_spec_step` on well-shaped input. -/
lemma updateS_task_eq_spec (n_features : ℕ) (c : List α) (d : Mat α) (b : List α)
    (lamS : α) (s : List α) (hb : b.length = n_features) (hs : s.length = n_features)
    (hd : IsMat n_features n_features d) :
    updateS_task n_features c d b lamS s
      = (List.range n_features).foldl (updateS_spec_step n_features c d b lamS) s := by
  unfold updateS_task
  refine foldl_congr_inv (fun s' => s'.length = n_features) _ _ _ s hs ?_ ?_
  · intro s' j hs' hj
    rw [List.mem_range] at hj
    have hd_row_len : (getRow d j).length = n_features := by
      have hj2 : j < d.length := by rw [hd.1]; exact hj
      have hgj := List.getD_eq_getElem d [] hj2
      rw [getRow, hgj]
      exact hd.2 _ (List.getElem_mem hj2)
    have halpha : (if getEntry d j j = 0 then (0 : α)
        else (c.getD j 0 - sumMul (vecAdd b (s'.set j 0)) (getRow d j)) / getEntry d j j)
        = (if getEntry d j j = 0 then (0 : α)
        else (c.getD j 0 - ∑ i ∈ Finset.range n_features,
            (b.getD i 0 + (s'.set j 0).getD i 0) * getEntry d j i) / getEntry d j j) := by
      rcases eq_or_ne (getEntry d j j) 0 with h | h
      · rw [if_pos h, if_pos h]
      · rw [if_neg h, if_neg h]
        congr 2
        rw [sumMul_eq_sum _ _ n_features
          (by rw [vecAdd, List.length_zipWith, hb, List.length_set, hs']; exact min_self _)
          hd_row_len]
        refine Finset.sum_congr rfl fun i hi => ?_
        rw [Finset.mem_range] at hi
        rw [vecAdd_getD _ _ _ (by rw [hb]; exact hi)
          (by rw [List.length_set, hs']; exact hi)]
        rfl
    show (let s_tmp := s'.set j 0;
          let alpha : α := if getEntry d j j = 0 then 0
            else (c.getD j 0 - sumMul (vecAdd b s_tmp) (getRow d j)) / getEntry d j j;
          if alpha ≤ lamS then s'.set j 0 else s'.set j (alpha - npSign alpha * lamS))
        = updateS_spec_step n_features c d b lamS s' j
    unfold updateS_spec_step
    dsimp only
    rw [halpha]
  · intro s' j hs' _
    dsimp only
    split <;> split <;> simp [List.length_set, hs']

/-- Claim C6: for every task `k` and every feature `j` taken in order,
`updateS` computes `alpha_j = (C_j - sum_i (B + S_with_row_j_zeroed)_i
* D[j,i]) / D[j,j]` from the most recent values of the column
(sequential coordinate descent), with `alpha_j = 0` when `D[j,j] = 0`,
and then sets `S_j` to `0` when `alpha_j ≤ lamS` and to `alpha_j -
sign(alpha_j) * lamS` otherwise; tasks are updated independently. -/
theorem updateS_spec_characterization (n_tasks n_features : ℕ) (C : Mat α)
    (D : List (Mat α)) (B S : Mat α) (lamS : α) (k : ℕ)
    (hB : IsMat n_features n_tasks B) (hS : IsMat n_features n_tasks S)
    (hD : D.length = n_tasks) (hDk : ∀ Dk ∈ D, IsMat n_features n_features Dk)
    (hk : k < n_tasks) :
    getCol (updateS n_tasks n_features C D B S lamS) k
      = (List.range n_features).foldl
          (updateS_spec_step n_features (getRow C k) (D.getD k []) (getCol B k) lamS)
          (getCol S k) := by
  rw [updateS_getCol n_tasks n_features C D B S lamS hS hk]
  refine updateS_task_eq_spec n_features _ _ _ lamS _ (by rw [length_getCol, hB.1])
    (by rw [length_getCol, hS.1]) ?_
  have hk2 : k < D.length := by rw [hD]; exact hk
  have hmem := List.getD_eq_getElem D [] hk2
  rw [hmem]
  exact hDk _ (List.getElem_mem hk2)

/-- Witness for C6 at a concrete input: one task, one feature,
`C = [[2]]`, `D = [[[1]]]`, `B = S = [[0]]`, `lamS = 1`, task `k = 0`. -/
theorem updateS_spec_characterization_witness :
    getCol (updateS 1 1 [[(2 : ℚ)]] [[[1]]] [[0]] [[0]] 1) 0
      = (List.range 1).foldl
          (updateS_spec_step 1 (getRow [[(2 : ℚ)]] 0) ([[[(1 : ℚ)]]].getD 0 [])
            (getCol [[(0 : ℚ)]] 0) 1)
          (getCol [[(0 : ℚ)]] 0) :=
  updateS_spec_characterization 1 1 [[2]] [[[1]]] [[0]] [[0]] 1 0
    (by constructor <;> simp [IsMat]) (by constructor <;> simp [IsMat])
    (by simp) (by intro Dk hDk; simp at hDk; simp [hDk, IsMat]) (by norm_num)


/-! ### Lemmas for `updateB`: argmax, argsort, cumulative sums -/

/-- Invariant run of the `np.argmax` scan: starting at position `i` with
the first maximum of the prefix as current best, the scan returns the
first position of the maximum of the whole list. -/
lemma npArgmaxAux_spec (v : List α) :
    ∀ (n i best : ℕ), v.length - i = n → best < i → i ≤ v.length →
      (∀ t, t < i → v.getD t 0 ≤ v.getD best 0) →
      (∀ t, t < best → v.getD t 0 < v.getD best 0) →
      npArgmaxAux (v.drop i) i best (v.getD best 0) < v.length ∧
      (∀ t, t < v.length →
        v.getD t 0 ≤ v.getD (npArgmaxAux (v.drop i) i best (v.getD best 0)) 0) ∧
      (∀ t, t < npArgmaxAux (v.drop i) i best (v.getD best 0) →
        v.getD t 0 < v.getD (npArgmaxAux (v.drop i) i best (v.getD best 0)) 0) := by
  intro n
  induction n with
  | zero =>
    intro i best h0 hbi hil hle hlt
    have hi : i = v.length := by omega
    rw [hi, List.drop_length]
    simp only [npArgmaxAux]
    exact ⟨by omega, fun t ht => hle t (by omega), hlt⟩
  | succ n ih =>
    intro i best h0 hbi hil hle hlt
    have hi : i < v.length := by omega
    rw [List.drop_eq_getElem_cons hi]
    simp only [npArgmaxAux]
    have hvi : v[i] = v.getD i 0 := (List.getD_eq_getElem v 0 hi).symm
    by_cases hc : v.getD best 0 < v[i]
    · rw [if_pos hc, hvi]
      have hc' : v.getD best 0 < v.getD i 0 := by rwa [hvi] at hc
      exact ih (i + 1) i (by omega) (by omega) (by omega)
        (fun t ht => by
          rcases Nat.lt_or_ge t i with h' | h'
          · exact le_of_lt (lt_of_le_of_lt (hle t h') hc')
          · have ht' : t = i := by omega
            subst ht'; exact le_refl _)
        (fun t ht => lt_of_le_of_lt (hle t ht) hc')
    · rw [if_neg hc]
      exact ih (i + 1) best (by omega) (by omega) (by omega)
        (fun t ht => by
          rcases Nat.lt_or_ge t i with h' | h'
          · exact hle t h'
          · have ht' : t = i := by omega
            subst ht'
            rw [← hvi]
            exact not_lt.1 hc)
        hlt

/-- `np.argmax` returns the first index attaining the maximum. -/
lemma npArgmax_spec (v : List α) (hv : v ≠ []) :
    npArgmax v < v.length ∧
    (∀ t, t < v.length → v.getD t 0 ≤ v.getD (npArgmax v) 0) ∧
    (∀ t, t < npArgmax v → v.getD t 0 < v.getD (npArgmax v) 0) := by
  rcases v with _ | ⟨x, xs⟩
  · exact absurd rfl hv
  · have h := npArgmaxAux_spec (x :: xs) ((x :: xs).length - 1) 1 0 (by simp) (by omega)
      (by simp)
      (fun t ht => by
        have ht' : t = 0 := by omega
        subst ht'; exact le_refl _)
      (fun t ht => by omega)
    have hdrop : (x :: xs).drop 1 = xs := rfl
    have hget0 : (x :: xs).getD 0 0 = x := rfl
    rw [hdrop, hget0] at h
    exact h

/-- Mapped list entry at an in-range position. -/
lemma getD_map_lt {β γ : Type} (f : β → γ) (l : List β) (i : ℕ) (h : i < l.length)
    (d : β) (d' : γ) : (l.map f).getD i d' = f (l.getD i d) := by
  rw [List.getD_eq_getElem _ _ (by simpa using h), List.getElem_map,
    List.getD_eq_getElem _ _ h]

/-- Shifted read through `tail` (also valid for the empty list, where
both sides are the default). -/
lemma getD_tail {β : Type} (l : List β) (n : ℕ) (d : β) :
    l.tail.getD n d = l.getD (n + 1) d := by
  rcases l with _ | ⟨x, xs⟩
  · rfl
  · rfl

/-- Entry of the tail of an additive scan: a partial sum. -/
lemma scanl_add_tail_getD (l : List α) :
    ∀ (a : α) (i : ℕ), i < l.length →
      ((l.scanl (· + ·) a).tail).getD i 0 = a + (l.take (i + 1)).sum := by
  induction l with
  | nil => intro a i h; simp at h
  | cons x xs ih =>
    intro a i h
    rw [List.scanl_cons]
    simp only [List.singleton_append, List.tail_cons]
    rcases i with _ | i'
    · rcases xs with _ | ⟨y, ys⟩ <;> simp [List.scanl]
    · have h' : i' < xs.length := by simpa using h
      have hih := ih (a + x) i' h'
      rw [← getD_tail, hih, List.take_succ_cons, List.sum_cons]
      ring

/-- Entry `i` of `cumsum l`: the sum of the first `i + 1` entries. -/
lemma cumsum_getD (l : List α) (i : ℕ) (h : i < l.length) :
    (cumsum l).getD i 0 = (l.take (i + 1)).sum := by
  unfold cumsum
  rw [scanl_add_tail_getD l 0 i h, zero_add]

/-- The descending-absolute-value argsort is a permutation of the index
range. -/
lemma argsortDescAbs_perm (v : List α) :
    (argsortDescAbs v).Perm (List.range v.length) :=
  List.perm_insertionSort _ _

/-- The argsort has one entry per position of `v`. -/
lemma argsortDescAbs_length (v : List α) : (argsortDescAbs v).length = v.length := by
  rw [(argsortDescAbs_perm v).length_eq, List.length_range]

/-- The argsort indices have no duplicates. -/
lemma argsortDescAbs_nodup (v : List α) : (argsortDescAbs v).Nodup :=
  ((argsortDescAbs_perm v).symm).nodup (List.nodup_range _)

/-- Every argsort index is a position of `v`. -/
lemma argsortDescAbs_mem (v : List α) {p : ℕ} (hp : p ∈ argsortDescAbs v) :
    p < v.length := by
  have := (argsortDescAbs_perm v).mem_iff.1 hp
  rwa [List.mem_range] at this

/-- The argsort is sorted by descending absolute value. -/
lemma argsortDescAbs_sorted (v : List α) :
    (argsortDescAbs v).Sorted (fun i j => |v.getD j 0| ≤ |v.getD i 0|) := by
  haveI : IsTotal ℕ (fun i j => |v.getD j 0| ≤ |v.getD i 0|) := ⟨fun a b => le_total _ _⟩
  haveI : IsTrans ℕ (fun i j => |v.getD j 0| ≤ |v.getD i 0|) :=
    ⟨fun a b c hab hbc => le_trans hbc hab⟩
  exact List.sorted_insertionSort _ _

/-- The sorted candidate values decrease in absolute value along the
ranks. -/
lemma sortedAlphas_desc (v : List α) {p q : ℕ} (hpq : p ≤ q) (hq : q < v.length) :
    |((argsortDescAbs v).map (fun i => v.getD i 0)).getD q 0|
      ≤ |((argsortDescAbs v).map (fun i => v.getD i 0)).getD p 0| := by
  have hlen := argsortDescAbs_length v
  have hql : q < (argsortDescAbs v).length := by omega
  have hpl : p < (argsortDescAbs v).length := by omega
  rw [getD_map_lt _ _ q (by omega) 0 0, getD_map_lt _ _ p (by omega) 0 0]
  rcases eq_or_lt_of_le hpq with rfl | hlt
  · exact le_refl _
  · have hpair := (List.pairwise_iff_getElem.1 (argsortDescAbs_sorted v)) p q hpl hql hlt
    rwa [← List.getD_eq_getElem (argsortDescAbs v) 0 hpl,
      ← List.getD_eq_getElem (argsortDescAbs v) 0 hql] at hpair

/-- Evaluating the ranked write-back fold: after `m` steps the entry at
position `ind t` (for `t < m`) holds `f t`, and the length is kept. -/
lemma foldl_set_ranked (ind : List ℕ) (f : ℕ → α) (w : List α)
    (hnd : ind.Nodup) (hb : ∀ p ∈ ind, p < w.length) :
    ∀ (m : ℕ), m ≤ ind.length →
      (∀ t, t < m →
        ((List.range m).foldl (fun w' k => w'.set (ind.getD k 0) (f k)) w).getD
          (ind.getD t 0) 0 = f t) ∧
      ((List.range m).foldl (fun w' k => w'.set (ind.getD k 0) (f k)) w).length
        = w.length := by
  intro m
  induction m with
  | zero => intro _; exact ⟨fun t ht => absurd ht (by omega), rfl⟩
  | succ m ih =>
    intro hm
    obtain ⟨ihv, ihl⟩ := ih (by omega)
    rw [List.range_succ, List.foldl_append]
    simp only [List.foldl_cons, List.foldl_nil]
    constructor
    · intro t ht
      rcases Nat.lt_or_ge t m with h' | h'
      · have hmlen : m < ind.length := by omega
        have htlen : t < ind.length := by omega
        have hne : ind.getD m 0 ≠ ind.getD t 0 := by
          rw [List.getD_eq_getElem _ _ hmlen, List.getD_eq_getElem _ _ htlen]
          intro hcontra
          exact absurd ((hnd.getElem_inj_iff).1 hcontra) (by omega)
        rw [getD_set_ne _ _ _ _ _ hne]
        exact ihv t h'
      · have ht' : t = m := by omega
        subst ht'
        refine getD_set_self _ _ _ _ ?_
        rw [ihl]
        refine hb _ ?_
        have htlen : t < ind.length := by omega
        exact (List.getD_eq_getElem ind 0 htlen) ▸ List.getElem_mem htlen
    · rw [List.length_set]; exact ihl

/-- The new row produced by `updateB_row` has one entry per task. -/
lemma updateB_row_length (n_tasks : ℕ) (lamB : α) (alphas : List α) :
    (updateB_row n_tasks lamB alphas).length = n_tasks := by
  unfold updateB_row
  split
  · exact List.length_replicate _ _
  · unfold new_weights
    refine List.foldlRecOn (motive := fun (w : List α) => w.length = n_tasks) _ _ _
      (List.length_replicate _ _) ?_
    intro w hw k _
    dsimp only
    split <;> simp [List.length_set, hw]

/-- Row `j` of `updateB` is the block shrinkage applied to the candidate
coefficients computed from the in-place state `updateB_upto` of `B`
for the features before `j`; later features do not touch row `j`. -/
lemma updateB_getRow (n_tasks n_features : ℕ) (C : Mat α) (D : List (Mat α)) (B S : Mat α)
    (lamB : α) {j : ℕ} (hB : IsMat n_features n_tasks B) (hj : j < n_features) :
    getRow (updateB n_tasks n_features C D B S lamB) j
      = updateB_row n_tasks lamB
          (updateB_alphas n_tasks C D (updateB_upto n_tasks C D S lamB B j) S j) := by
  unfold updateB
  rw [show n_features = (j + 1) + (n_features - (j + 1)) from by omega, List.range_add,
    List.foldl_append, List.range_succ, List.foldl_append]
  have hpref : (List.range j).foldl (fun B' j' =>
      setRow B' j' (updateB_row n_tasks lamB (updateB_alphas n_tasks C D B' S j'))) B
      = updateB_upto n_tasks C D S lamB B j := rfl
  have hlen : (updateB_upto n_tasks C D S lamB B j).length = n_features := by
    unfold updateB_upto
    refine List.foldlRecOn (motive := fun (B' : Mat α) => B'.length = n_features) _ _ _ hB.1 ?_
    intro B' hB' j' _
    rw [setRow, List.length_set]; exact hB'
  rw [hpref]
  have hmid : getRow (setRow (updateB_upto n_tasks C D S lamB B j) j
      (updateB_row n_tasks lamB
        (updateB_alphas n_tasks C D (updateB_upto n_tasks C D S lamB B j) S j))) j
      = updateB_row n_tasks lamB
          (updateB_alphas n_tasks C D (updateB_upto n_tasks C D S lamB B j) S j) :=
    getRow_setRow_self _ _ _ (by rw [hlen]; exact hj)
  refine List.foldlRecOn (motive := fun B'' => getRow B'' j
      = updateB_row n_tasks lamB
          (updateB_alphas n_tasks C D (updateB_upto n_tasks C D S lamB B j) S j))
    _ _ _ (by simpa using hmid) ?_
  intro B'' hB'' x hx
  obtain ⟨i, _, rfl⟩ := List.mem_map.1 hx
  rw [getRow_setRow_ne _ _ _ _ (by omega), hB'']


/-! ### Claim C8: `updateB` with `lamB = 0` -/

/-- `np.sign(x) * |x| = x`. -/
lemma npSign_mul_abs (x : α) : npSign x * |x| = x := by
  unfold npSign
  rcases lt_trichotomy x 0 with h | h | h
  · rw [if_pos h, abs_of_neg h]; ring
  · simp [h]
  · rw [if_neg (not_lt.2 (le_of_lt h)), if_neg (ne_of_gt h), abs_of_pos h]; ring

/-- A list whose absolute values sum to at most zero is all zeros. -/
lemma eq_zero_of_sum_abs_nonpos {l : List α} (h : (l.map (fun x => |x|)).sum ≤ 0) :
    ∀ x ∈ l, x = 0 := by
  induction l with
  | nil => intro x hx; simp at hx
  | cons y ys ih =>
    intro x hx
    have hy : (0 : α) ≤ |y| := abs_nonneg y
    have hys : (0 : α) ≤ (ys.map (fun x => |x|)).sum :=
      List.sum_nonneg (fun a ha => by
        obtain ⟨b, _, rfl⟩ := List.mem_map.1 ha
        exact abs_nonneg b)
    rw [List.map_cons, List.sum_cons] at h
    rcases List.mem_cons.1 hx with rfl | hx'
    · have : |x| ≤ 0 := by linarith
      exact abs_nonpos_iff.1 this
    · exact ih (by linarith) x hx'

/-- Range entry at an in-range position. -/
lemma range_getD (n i : ℕ) (h : i < n) : (List.range n).getD i 0 = i := by
  rw [List.getD_eq_getElem _ _ (by simpa using h), List.getElem_range]

/-- The length of the candidate vector is the number of tasks. -/
lemma updateB_alphas_length (n_tasks : ℕ) (C : Mat α) (D : List (Mat α)) (B S : Mat α)
    (j : ℕ) : (updateB_alphas n_tasks C D B S j).length = n_tasks := by
  simp [updateB_alphas]

/-- The in-place prefix state of `updateB` keeps the matrix shape. -/
lemma updateB_upto_IsMat (n_tasks n_features : ℕ) (C : Mat α) (D : List (Mat α))
    (S : Mat α) (lamB : α) (B : Mat α) (j : ℕ) (hB : IsMat n_features n_tasks B) :
    IsMat n_features n_tasks (updateB_upto n_tasks C D S lamB B j) := by
  unfold updateB_upto
  refine List.foldlRecOn (motive := fun (B' : Mat α) => IsMat n_features n_tasks B')
    _ _ _ hB ?_
  intro B' hB' j' _
  exact IsMat_setRow hB' j' (updateB_row_length _ _ _)

/-- With `lamB = 0` and a not-all-zero candidate vector, the block
shrinkage of `updateB_row` is the identity: the running means of the
descending absolute values are maximal at rank `0`, so `m_star = 0`,
the rank-`0` update `sign(a)/1 * (|a| - 0)` recovers `a`, and every
other rank keeps its raw value. -/
lemma updateB_row_id (n_tasks : ℕ) (alphas : List α) (hlen : alphas.length = n_tasks)
    (hnz : alphas ≠ List.replicate n_tasks 0) :
    updateB_row n_tasks 0 alphas = alphas := by
  have hnt : 1 ≤ n_tasks := by
    rcases Nat.eq_zero_or_pos n_tasks with h0 | h0
    · subst h0
      exact absurd (List.eq_nil_of_length_eq_zero hlen) (by simpa using hnz)
    · exact h0
  have hl1 : ¬ l1norm alphas ≤ (0 : α) := by
    intro hle
    refine hnz (List.eq_replicate_iff.2 ⟨hlen, fun b hb => ?_⟩)
    exact eq_zero_of_sum_abs_nonpos hle b hb
  have hindlen : (argsortDescAbs alphas).length = n_tasks := by
    rw [argsortDescAbs_length, hlen]
  have hsortlen : (sorted_alphas alphas).length = n_tasks := by
    rw [sorted_alphas, List.length_map, hindlen]
  have habslen : ((sorted_alphas alphas).map (fun x => |x|)).length = n_tasks := by
    rw [List.length_map, hsortlen]
  have hhead : (((sorted_alphas alphas).map (fun x => |x|)).take 1).sum
      = |(sorted_alphas alphas).getD 0 0| := by
    rcases hs : (sorted_alphas alphas).map (fun x => |x|) with _ | ⟨z, zs⟩
    · rw [hs] at habslen; simp at habslen; omega
    · have hz : z = |(sorted_alphas alphas).getD 0 0| := by
        have hz' := congrArg (fun l => l.getD 0 (0 : α)) hs
        simp only [List.getD_cons_zero] at hz'
        rw [← hz', getD_map_lt _ _ 0 (by rw [hsortlen]; exact hnt) 0 0]
      rw [List.take_succ_cons, List.take_zero, List.sum_cons, List.sum_nil, add_zero, hz]
  have hm0 : m_star n_tasks 0 alphas = 0 := by
    unfold m_star
    set crit := (List.range n_tasks).map (fun i =>
      ((cumsum ((sorted_alphas alphas).map (fun x => |x|))).getD i 0 - 0) / ((i : α) + 1))
      with hcrit
    have hcritlen : crit.length = n_tasks := by
      rw [hcrit, List.length_map, List.length_range]
    have hcrit_ne : crit ≠ [] := by
      intro hc
      rw [hc] at hcritlen
      simp at hcritlen
      omega
    have hcritval : ∀ i, i < n_tasks → crit.getD i 0
        = (((sorted_alphas alphas).map (fun x => |x|)).take (i + 1)).sum / ((i : α) + 1) := by
      intro i hi
      rw [hcrit, getD_map_lt _ _ i (by simpa using hi) 0 0, range_getD _ _ hi,
        cumsum_getD _ _ (by rw [habslen]; exact hi), sub_zero]
    have habs_le_head : ∀ t, t < n_tasks →
        ((sorted_alphas alphas).map (fun x => |x|)).getD t 0
          ≤ |(sorted_alphas alphas).getD 0 0| := by
      intro t ht
      rw [getD_map_lt _ _ t (by rw [hsortlen]; exact ht) 0 0]
      exact sortedAlphas_desc alphas (Nat.zero_le t) (by rw [hlen]; exact ht)
    have hcrit_le : ∀ i, i < n_tasks → crit.getD i 0 ≤ crit.getD 0 0 := by
      intro i hi
      rw [hcritval i hi, hcritval 0 hnt, hhead,
        show ((0 : ℕ) : α) + 1 = 1 from by norm_num, div_one]
      have hsum : (((sorted_alphas alphas).map (fun x => |x|)).take (i + 1)).sum
          ≤ ((i : α) + 1) * |(sorted_alphas alphas).getD 0 0| := by
        have hmem : ∀ x ∈ ((sorted_alphas alphas).map (fun x => |x|)).take (i + 1),
            x ≤ |(sorted_alphas alphas).getD 0 0| := by
          intro x hx
          have hx' := List.mem_of_mem_take hx
          obtain ⟨t, ht, rfl⟩ := List.mem_iff_getElem.1 hx'
          rw [← List.getD_eq_getElem _ 0 ht]
          exact habs_le_head t (by rw [← habslen]; exact ht)
        have hsn := List.sum_le_card_nsmul _ _ hmem
        have hcard : (((sorted_alphas alphas).map (fun x => |x|)).take (i + 1)).length
            ≤ i + 1 := by
          simpa using List.length_take_le _ _
        calc (((sorted_alphas alphas).map (fun x => |x|)).take (i + 1)).sum
            ≤ (((sorted_alphas alphas).map (fun x => |x|)).take (i + 1)).length
                • |(sorted_alphas alphas).getD 0 0| := hsn
          _ ≤ (i + 1) • |(sorted_alphas alphas).getD 0 0| := by
              refine nsmul_le_nsmul_left ?_ hcard
              exact abs_nonneg _
          _ = ((i : α) + 1) * |(sorted_alphas alphas).getD 0 0| := by
              rw [nsmul_eq_mul]
              push_cast
              ring
      rw [div_le_iff₀ (by positivity)]
      calc (((sorted_alphas alphas).map (fun x => |x|)).take (i + 1)).sum
          ≤ ((i : α) + 1) * |(sorted_alphas alphas).getD 0 0| := hsum
        _ = |(sorted_alphas alphas).getD 0 0| * ((i : α) + 1) := by ring
    obtain ⟨hmlt, hmax, hfirst⟩ := npArgmax_spec crit hcrit_ne
    by_contra hne
    have h0lt : 0 < npArgmax crit := Nat.pos_of_ne_zero hne
    have hstrict := hfirst 0 h0lt
    have hle := hcrit_le (npArgmax crit) (by rw [← hcritlen]; exact hmlt)
    linarith
  unfold updateB_row
  rw [if_neg hl1]
  unfold new_weights
  rw [hm0]
  have hstep : ∀ (w : List α) (k : ℕ), k ∈ List.range n_tasks →
      (let idx := (argsortDescAbs alphas).getD k 0
       if 0 < k then w.set idx ((sorted_alphas alphas).getD k 0)
       else
         let sign := npSign ((sorted_alphas alphas).getD k 0)
         let update_term := (((sorted_alphas alphas).map (fun x => |x|)).take (0 + 1)).sum - 0
         w.set idx (sign / (((0 : ℕ) : α) + 1) * update_term))
      = w.set ((argsortDescAbs alphas).getD k 0)
          (alphas.getD ((argsortDescAbs alphas).getD k 0) 0) := by
    intro w k hk
    rw [List.mem_range] at hk
    have hval : (sorted_alphas alphas).getD k 0
        = alphas.getD ((argsortDescAbs alphas).getD k 0) 0 := by
      rw [sorted_alphas, getD_map_lt _ _ k (by rw [hindlen]; exact hk) 0 0]
    dsimp only
    rcases Nat.eq_zero_or_pos k with rfl | hkpos
    · rw [if_neg (lt_irrefl 0), hhead, sub_zero,
        show ((0 : ℕ) : α) + 1 = 1 from by norm_num, div_one, npSign_mul_abs, hval]
    · rw [if_pos hkpos, hval]
  have hbounds : ∀ p ∈ argsortDescAbs alphas, p < (List.replicate n_tasks (0 : α)).length := by
    intro p hp
    rw [List.length_replicate, ← hlen]
    exact argsortDescAbs_mem alphas hp
  have hrecon := foldl_set_ranked (argsortDescAbs alphas)
    (fun k => alphas.getD ((argsortDescAbs alphas).getD k 0) 0)
    (List.replicate n_tasks 0) (argsortDescAbs_nodup alphas) hbounds n_tasks
    (le_of_eq hindlen.symm)
  rw [foldl_congr_mem _ _ _ _ (fun w k hk => hstep w k hk)]
  apply List.ext_getElem
  · rw [hrecon.2, List.length_replicate, hlen]
  · intro q h1 h2
    have hq : q < n_tasks := by rw [hrecon.2, List.length_replicate] at h1; exact h1
    have hqmem : q ∈ argsortDescAbs alphas := by
      rw [(argsortDescAbs_perm alphas).mem_iff, List.mem_range, hlen]
      exact hq
    obtain ⟨t, ht, hqt⟩ := List.mem_iff_getElem.1 hqmem
    have htn : t < n_tasks := by rw [← hindlen]; exact ht
    have hqt' : (argsortDescAbs alphas).getD t 0 = q := by
      rw [List.getD_eq_getElem _ _ ht, hqt]
    have hv := hrecon.1 t htn
    rw [hqt'] at hv
    rw [← List.getD_eq_getElem _ 0 h1, ← List.getD_eq_getElem _ 0 h2, hv]
    dsimp only
    rw [hqt']

/-- Claim C8: calling `updateB` with `lamB = 0` writes back, for each
feature `j` whose candidate vector is not identically zero, exactly
the unregularized per-feature-per-task coordinate values `alphas` —
no shrinkage is applied to any task coefficient. -/
theorem updateB_lamB_zero_no_shrinkage (n_tasks n_features : ℕ) (C : Mat α)
    (D : List (Mat α)) (B S : Mat α) (j : ℕ) (hB : IsMat n_features n_tasks B)
    (hj : j < n_features)
    (hnz : updateB_alphas n_tasks C D (updateB_upto n_tasks C D S 0 B j) S j
      ≠ List.replicate n_tasks 0) :
    getRow (updateB n_tasks n_features C D B S 0) j
      = updateB_alphas n_tasks C D (updateB_upto n_tasks C D S 0 B j) S j := by
  rw [updateB_getRow n_tasks n_features C D B S 0 hB hj]
  exact updateB_row_id n_tasks _ (updateB_alphas_length _ _ _ _ _ _) hnz

/-- Witness for C8 at a concrete input: one task, one feature,
`C = [[1]]`, `D = [[[1]]]`, `B = S = [[0]]`, feature `j = 0`, where the
candidate vector is `[1] ≠ [0]` and the row written back is `[1]`. -/
theorem updateB_lamB_zero_no_shrinkage_witness :
    getRow (updateB 1 1 [[(1 : ℚ)]] [[[1]]] [[0]] [[0]] 0) 0
      = updateB_alphas 1 [[(1 : ℚ)]] [[[1]]]
          (updateB_upto 1 [[(1 : ℚ)]] [[[1]]] [[0]] 0 [[0]] 0) [[0]] 0 :=
  updateB_lamB_zero_no_shrinkage 1 1 [[1]] [[[1]]] [[0]] [[0]] 0
    (by constructor <;> simp [IsMat]) (by norm_num)
    (by norm_num [updateB_alphas, updateB_upto, getCol, getRow, getEntry, sumMul, vecAdd,
      List.range_succ])


/-! ### Claim C3: full characterization of `updateB` -/

/-- Claim C3: for each feature `j` (processed in order, so the rows of
earlier features are already updated in place — state `Bj`), `updateB`
first computes one unregularized candidate `alphas[k]` per task by
zeroing `B[j,k]` (`alphas[k] = 0` when `D[k][j,j] = 0`); if the l1
norm of `alphas` is at most `lamB` the whole row `B[j,:]` becomes
zero; otherwise, with `|alphas|` sorted descending, `m_star` is the
first rank maximizing `(sum of the top (i+1) sorted |alphas| - lamB) /
(i+1)`, ranks above `m_star` keep their raw value, and each rank at
most `m_star` becomes `sign(alpha)/(m_star+1) * (sum of the top
(m_star+1) sorted |alphas| - lamB)`. -/
theorem updateB_spec_characterization (n_tasks n_features : ℕ) (C : Mat α)
    (D : List (Mat α)) (B S : Mat α) (lamB : α) (j : ℕ)
    (hnt : 1 ≤ n_tasks) (hj : j < n_features)
    (hB : IsMat n_features n_tasks B) (hS : IsMat n_features n_tasks S)
    (hD : D.length = n_tasks) (hDk : ∀ Dk ∈ D, IsMat n_features n_features Dk) :
    ∀ Bj alphas, Bj = updateB_upto n_tasks C D S lamB B j →
      alphas = updateB_alphas n_tasks C D Bj S j →
      (alphas.length = n_tasks ∧ ∀ k, k < n_tasks →
        alphas.getD k 0 = if getEntry (D.getD k []) j j = 0 then 0
          else (getEntry C k j - ∑ i ∈ Finset.range n_features,
            (((getCol Bj k).set j 0).getD i 0 + (getCol S k).getD i 0)
              * getEntry (D.getD k []) i j) / getEntry (D.getD k []) j j) ∧
      ((∑ k ∈ Finset.range n_tasks, |alphas.getD k 0|) ≤ lamB →
        getRow (updateB n_tasks n_features C D B S lamB) j = List.replicate n_tasks 0) ∧
      (¬ (∑ k ∈ Finset.range n_tasks, |alphas.getD k 0|) ≤ lamB →
        ∀ indices sorted, indices = argsortDescAbs alphas →
          sorted = indices.map (fun i => alphas.getD i 0) →
          indices.Perm (List.range n_tasks) ∧
          (∀ p q, p ≤ q → q < n_tasks →
            |sorted.getD q 0| ≤ |sorted.getD p 0|) ∧
          ∃ ms, ms < n_tasks ∧
            (∀ i, i < n_tasks →
              (((sorted.map (fun x => |x|)).take (i + 1)).sum - lamB) / ((i : α) + 1)
                ≤ (((sorted.map (fun x => |x|)).take (ms + 1)).sum - lamB)
                    / ((ms : α) + 1)) ∧
            (∀ i, i < ms →
              (((sorted.map (fun x => |x|)).take (i + 1)).sum - lamB) / ((i : α) + 1)
                < (((sorted.map (fun x => |x|)).take (ms + 1)).sum - lamB)
                    / ((ms : α) + 1)) ∧
            (∀ k, k < n_tasks →
              (getRow (updateB n_tasks n_features C D B S lamB) j).getD
                  (indices.getD k 0) 0
                = if ms < k then sorted.getD k 0
                  else npSign (sorted.getD k 0) / ((ms : α) + 1)
                      * (((sorted.map (fun x => |x|)).take (ms + 1)).sum - lamB))) := by
  intro Bj alphas hBj halphas
  subst hBj
  subst halphas
  set Bj := updateB_upto n_tasks C D S lamB B j with hBj
  set alphas := updateB_alphas n_tasks C D Bj S j with halphas
  have hBjmat : IsMat n_features n_tasks Bj :=
    updateB_upto_IsMat n_tasks n_features C D S lamB B j hB
  have hlen : alphas.length = n_tasks := updateB_alphas_length _ _ _ _ _ _
  refine ⟨⟨hlen, ?_⟩, ?_, ?_⟩
  · -- (i) the candidate coefficients as stated
    intro k hk
    rw [halphas, updateB_alphas, getD_map_lt _ _ k (by simpa using hk) 0 0,
      range_getD _ _ hk]
    dsimp only
    rcases eq_or_ne (getEntry (D.getD k []) j j) 0 with h0 | h0
    · rw [if_pos h0, if_pos h0]
    · rw [if_neg h0, if_neg h0]
      congr 2
      have hd : IsMat n_features n_features (D.getD k []) := by
        have hk' : k < D.length := by rw [hD]; exact hk
        rw [List.getD_eq_getElem D [] hk']
        exact hDk _ (List.getElem_mem hk')
      have hblen : ((getCol Bj k).set j 0).length = n_features := by
        rw [List.length_set, length_getCol, hBjmat.1]
      have hslen : (getCol S k).length = n_features := by
        rw [length_getCol, hS.1]
      rw [sumMul_eq_sum _ _ n_features
        (by rw [vecAdd, List.length_zipWith, hblen, hslen]; exact min_self _)
        (by rw [length_getCol, hd.1])]
      refine Finset.sum_congr rfl fun i hi => ?_
      rw [Finset.mem_range] at hi
      rw [vecAdd_getD _ _ _ (by rw [hblen]; exact hi) (by rw [hslen]; exact hi),
        getCol_getD, getCol_getD]
  · -- (ii) the all-zero row when the l1 norm is within the penalty
    intro hsum
    have hl1 : l1norm alphas ≤ lamB := by
      rw [l1norm_eq_sum _ n_tasks hlen]
      exact hsum
    rw [updateB_getRow n_tasks n_features C D B S lamB hB hj, ← hBj, ← halphas,
      updateB_row, if_pos hl1]
  · -- (iii) the ranked shrinkage
    intro hsum indices sorted hI hSrt
    subst hI
    subst hSrt
    have hl1 : ¬ l1norm alphas ≤ lamB := by
      rw [l1norm_eq_sum _ n_tasks hlen]
      exact hsum
    have hindlen : (argsortDescAbs alphas).length = n_tasks := by
      rw [argsortDescAbs_length, hlen]
    have hsorted_eq : (argsortDescAbs alphas).map (fun i => alphas.getD i 0)
        = sorted_alphas alphas := rfl
    have hsortlen : (sorted_alphas alphas).length = n_tasks := by
      rw [sorted_alphas, List.length_map, hindlen]
    have habslen : ((sorted_alphas alphas).map (fun x => |x|)).length = n_tasks := by
      rw [List.length_map, hsortlen]
    refine ⟨?_, ?_, ?_⟩
    · have hp := argsortDescAbs_perm alphas
      rwa [hlen] at hp
    · intro p q hpq hq
      rw [hsorted_eq]
      exact sortedAlphas_desc alphas hpq (by rw [hlen]; exact hq)
    · -- the first-maximum rank and the written row
      rw [hsorted_eq]
      set crit := (List.range n_tasks).map (fun i =>
        ((cumsum ((sorted_alphas alphas).map (fun x => |x|))).getD i 0 - lamB)
          / ((i : α) + 1)) with hcrit
      have hms_def : m_star n_tasks lamB alphas = npArgmax crit := rfl
      have hcritlen : crit.length = n_tasks := by
        rw [hcrit, List.length_map, List.length_range]
      have hcrit_ne : crit ≠ [] := by
        intro hc
        rw [hc] at hcritlen
        simp at hcritlen
        omega
      have hcritval : ∀ i, i < n_tasks → crit.getD i 0
          = ((((sorted_alphas alphas).map (fun x => |x|)).take (i + 1)).sum - lamB)
              / ((i : α) + 1) := by
        intro i hi
        rw [hcrit, getD_map_lt _ _ i (by simpa using hi) 0 0, range_getD _ _ hi,
          cumsum_getD _ _ (by rw [habslen]; exact hi)]
      obtain ⟨hmlt, hmax, hfirst⟩ := npArgmax_spec crit hcrit_ne
      rw [← hms_def] at hmlt hmax hfirst
      have hmsnt : m_star n_tasks lamB alphas < n_tasks := by
        have h := hmlt
        rw [hcritlen] at h
        exact h
      refine ⟨m_star n_tasks lamB alphas, hmsnt, ?_, ?_, ?_⟩
      · intro i hi
        have := hmax i (by rw [hcritlen]; exact hi)
        rwa [hcritval i hi, hcritval _ hmsnt] at this
      · intro i hi
        have := hfirst i hi
        rwa [hcritval i (by omega), hcritval _ hmsnt] at this
      · -- the values written back
        intro k hk
        rw [updateB_getRow n_tasks n_features C D B S lamB hB hj, ← hBj, ← halphas,
          updateB_row, if_neg hl1]
        unfold new_weights
        have hstep : ∀ (w : List α) (t : ℕ), t ∈ List.range n_tasks →
            (let idx := (argsortDescAbs alphas).getD t 0
             if m_star n_tasks lamB alphas < t then
               w.set idx ((sorted_alphas alphas).getD t 0)
             else
               let sign := npSign ((sorted_alphas alphas).getD t 0)
               let update_term := (((sorted_alphas alphas).map (fun x => |x|)).take
                 (m_star n_tasks lamB alphas + 1)).sum - lamB
               w.set idx (sign / ((m_star n_tasks lamB alphas : ℕ) + 1 : α) * update_term))
            = w.set ((argsortDescAbs alphas).getD t 0)
                (if m_star n_tasks lamB alphas < t then (sorted_alphas alphas).getD t 0
                 else npSign ((sorted_alphas alphas).getD t 0)
                     / ((m_star n_tasks lamB alphas : α) + 1)
                     * ((((sorted_alphas alphas).map (fun x => |x|)).take
                         (m_star n_tasks lamB alphas + 1)).sum - lamB)) := by
          intro w t _
          dsimp only
          by_cases h : m_star n_tasks lamB alphas < t
          · rw [if_pos h, if_pos h]
          · rw [if_neg h, if_neg h]
        rw [foldl_congr_mem _ _ _ _ (fun w t ht => hstep w t ht)]
        have hbounds : ∀ p ∈ argsortDescAbs alphas,
            p < (List.replicate n_tasks (0 : α)).length := by
          intro p hp
          rw [List.length_replicate, ← hlen]
          exact argsortDescAbs_mem alphas hp
        have hrecon := foldl_set_ranked (argsortDescAbs alphas)
          (fun t => if m_star n_tasks lamB alphas < t then (sorted_alphas alphas).getD t 0
            else npSign ((sorted_alphas alphas).getD t 0)
                / ((m_star n_tasks lamB alphas : α) + 1)
                * ((((sorted_alphas alphas).map (fun x => |x|)).take
                    (m_star n_tasks lamB alphas + 1)).sum - lamB))
          (List.replicate n_tasks 0) (argsortDescAbs_nodup alphas) hbounds n_tasks
          (le_of_eq hindlen.symm)
        exact hrecon.1 k hk

/-- Witness for C3 at a concrete input: one task, one feature,
`C = [[1]]`, `D = [[[1]]]`, `B = S = [[0]]`, `lamB = 2`, feature
`j = 0`, with the defining equations discharged by `rfl`. -/
theorem updateB_spec_characterization_witness :
    ((updateB_alphas 1 [[(1 : ℚ)]] [[[1]]]
        (updateB_upto 1 [[(1 : ℚ)]] [[[1]]] [[0]] 2 [[0]] 0) [[0]] 0).length = 1 ∧
      ∀ k, k < 1 →
        (updateB_alphas 1 [[(1 : ℚ)]] [[[1]]]
            (updateB_upto 1 [[(1 : ℚ)]] [[[1]]] [[0]] 2 [[0]] 0) [[0]] 0).getD k 0
          = if getEntry ([[[(1 : ℚ)]]].getD k []) 0 0 = 0 then 0
            else (getEntry [[(1 : ℚ)]] k 0 - ∑ i ∈ Finset.range 1,
              (((getCol (updateB_upto 1 [[(1 : ℚ)]] [[[1]]] [[0]] 2 [[0]] 0) k).set 0 0).getD i 0
                + (getCol [[(0 : ℚ)]] k).getD i 0)
                * getEntry ([[[(1 : ℚ)]]].getD k []) i 0) / getEntry ([[[(1 : ℚ)]]].getD k []) 0 0) ∧
    ((∑ k ∈ Finset.range 1, |(updateB_alphas 1 [[(1 : ℚ)]] [[[1]]]
        (updateB_upto 1 [[(1 : ℚ)]] [[[1]]] [[0]] 2 [[0]] 0) [[0]] 0).getD k 0|) ≤ 2 →
      getRow (updateB 1 1 [[(1 : ℚ)]] [[[1]]] [[0]] [[0]] 2) 0 = List.replicate 1 0) ∧
    (¬ (∑ k ∈ Finset.range 1, |(updateB_alphas 1 [[(1 : ℚ)]] [[[1]]]
        (updateB_upto 1 [[(1 : ℚ)]] [[[1]]] [[0]] 2 [[0]] 0) [[0]] 0).getD k 0|) ≤ 2 →
      ∀ indices sorted,
        indices = argsortDescAbs (updateB_alphas 1 [[(1 : ℚ)]] [[[1]]]
          (updateB_upto 1 [[(1 : ℚ)]] [[[1]]] [[0]] 2 [[0]] 0) [[0]] 0) →
        sorted = indices.map (fun i => (updateB_alphas 1 [[(1 : ℚ)]] [[[1]]]
          (updateB_upto 1 [[(1 : ℚ)]] [[[1]]] [[0]] 2 [[0]] 0) [[0]] 0).getD i 0) →
        indices.Perm (List.range 1) ∧
        (∀ p q, p ≤ q → q < 1 → |sorted.getD q 0| ≤ |sorted.getD p 0|) ∧
        ∃ ms, ms < 1 ∧
          (∀ i, i < 1 →
            (((sorted.map (fun x => |x|)).take (i + 1)).sum - 2) / ((i : ℚ) + 1)
              ≤ (((sorted.map (fun x => |x|)).take (ms + 1)).sum - 2) / ((ms : ℚ) + 1)) ∧
          (∀ i, i < ms →
            (((sorted.map (fun x => |x|)).take (i + 1)).sum - 2) / ((i : ℚ) + 1)
              < (((sorted.map (fun x => |x|)).take (ms + 1)).sum - 2) / ((ms : ℚ) + 1)) ∧
          (∀ k, k < 1 →
            (getRow (updateB 1 1 [[(1 : ℚ)]] [[[1]]] [[0]] [[0]] 2) 0).getD
                (indices.getD k 0) 0
              = if ms < k then sorted.getD k 0
                else npSign (sorted.getD k 0) / ((ms : ℚ) + 1)
                    * (((sorted.map (fun x => |x|)).take (ms + 1)).sum - 2))) :=
  updateB_spec_characterization 1 1 [[1]] [[[1]]] [[0]] [[0]] 2 0 (le_refl 1) (by norm_num)
    (by constructor <;> simp [IsMat]) (by constructor <;> simp [IsMat]) (by simp)
    (by intro Dk hDk; simp at hDk; simp [hDk, IsMat]) _ _ rfl rfl


/-! ### Claim C2: the importance rescaling computes the variance of the
squared residuals, not the variance of the residuals -/

/-- Claim C2, evaluation at the failing input `X = [[-1], [0], [1]]`,
`y = [0, 1, 0]` (one retained regulator): the single-predictor OLS fit
has slope `0` and intercept `1/3`, so the residuals are
`[-1/3, 2/3, -1/3]`; the code computes `1 - var((y - ŷ)²)/var(y) = 8/9`,
while the claimed importance `1 - var(y - ŷ)/var(y)` equals `0`. -/
theorem final_weights_single_buggy :
    final_weights_single_resc ([-1, 0, 1] : List ℚ) [0, 1, 0] = 8 / 9 ∧
    1 - npVar (List.zipWith (fun a b => a - b) ([0, 1, 0] : List ℚ)
        (ols1_predict [-1, 0, 1] [0, 1, 0])) / npVar [0, 1, 0] = 0 ∧
    (8 / 9 : ℚ) ≠ 0 := by
  refine ⟨?_, ?_, by norm_num⟩ <;>
    norm_num [final_weights_single_resc, ols1_predict, ols1_intercept, ols1_slope,
      npCov, npVar, npMean]


/-! ### Claim C7: the EBIC scorer -/

/-- A left fold appending one element per item is a map. -/
lemma foldl_append_singleton_eq_map {β γ : Type} (f : γ → β) (l : List γ) :
    ∀ acc : List β, l.foldl (fun a x => a ++ [f x]) acc = acc ++ l.map f := by
  induction l with
  | nil => intro acc; simp
  | cons x xs ih =>
    intro acc
    simp only [List.foldl_cons, List.map_cons]
    rw [ih]
    simp

/-- Claim C7: the EBIC score of a candidate `W` is the mean over the
tasks of `n_k * log(RSS_k / n_k) + p_k * log(n_k) + 2 * gamma *
log(C(n_preds, p_k))`, with `gamma` defaulting to `1` (the grid search
calls `ebic` without `gamma`), `RSS_k` the residual sum of squares and
`p_k` the nonzero count of column `k` of `W`; when `p_k = 0` the
combinatorial term is `log(C(n, 0)) = log 1 = 0`. -/
theorem ebic_characterization (X : List (Mat ℝ)) (Y : List (List ℝ)) (W : Mat ℝ)
    (n_tasks : ℕ) (n_samples : List ℕ) (n_preds : ℕ) :
    ebic X Y W n_tasks n_samples n_preds
      = (∑ k ∈ Finset.range n_tasks,
          (((n_samples.getD k 0 : ℕ) : ℝ)
              * Real.log (sum_squared_erros X Y W k / ((n_samples.getD k 0 : ℕ) : ℝ))
            + (((getCol W k).countP (fun w => decide (w ≠ 0)) : ℕ) : ℝ)
              * Real.log ((n_samples.getD k 0 : ℕ) : ℝ)
            + 2 * 1 * Real.log ((Nat.choose n_preds
                ((getCol W k).countP (fun w => decide (w ≠ 0))) : ℕ) : ℝ)))
          / (n_tasks : ℝ) ∧
    (∀ n : ℕ, 2 * (1 : ℝ) * Real.log ((Nat.choose n 0 : ℕ) : ℝ) = 0) ∧
    ebic X Y W n_tasks n_samples n_preds = ebic_gamma X Y W n_tasks n_samples n_preds 1 := by
  refine ⟨?_, fun n => by simp, rfl⟩
  unfold ebic ebic_gamma
  rw [foldl_congr_mem _ (fun (a : List ℝ) (k : ℕ) => a ++
      [((n_samples.getD k 0 : ℕ) : ℝ)
          * Real.log (sum_squared_erros X Y W k / ((n_samples.getD k 0 : ℕ) : ℝ))
        + (((getCol W k).countP (fun w => decide (w ≠ 0)) : ℕ) : ℝ)
          * Real.log ((n_samples.getD k 0 : ℕ) : ℝ)
        + 2 * 1 * Real.log ((Nat.choose n_preds
            ((getCol W k).countP (fun w => decide (w ≠ 0))) : ℕ) : ℝ)])
    _ _ (fun a k _ => rfl)]
  rw [foldl_append_singleton_eq_map, List.nil_append]
  unfold npMean
  rw [List.length_map, List.length_range,
    sum_eq_sum_getD _ n_tasks (by rw [List.length_map, List.length_range])]
  congr 1
  refine Finset.sum_congr rfl fun k hk => ?_
  rw [Finset.mem_range] at hk
  rw [getD_map_lt _ _ k (by simpa using hk) 0 0, range_getD _ _ hk]

/-! ### Claim C9: no shape validation in `run_regression_EBIC_SS` -/

/-- Claim C9 (supporting theorem): `run_regression_EBIC_SS` never
compares the regulator list against the design's column count —
`n_preds` is read off `X[0]` alone, the selected weights
`run_regression_outW` do not take `TFs` at all, and the result of the
whole pipeline is the same for any two regulator lists up to the
`cTFs` labels in the final records.  In particular, a mismatched list
raises nothing and the full grid computation is performed. -/
theorem run_regression_no_shape_check (X : List (Mat ℝ)) (Y : List (List ℝ))
    (tasks : List ℕ) (gene : String) (TFs TFs2 : List String) :
    ((run_regression_EBIC_SS X Y TFs tasks gene).1).map
        (fun e => (e.1, e.2.Xsel, e.2.y))
      = ((run_regression_EBIC_SS X Y TFs2 tasks gene).1).map
        (fun e => (e.1, e.2.Xsel, e.2.y)) ∧
    (run_regression_EBIC_SS X Y TFs tasks gene).2
      = (run_regression_EBIC_SS X Y TFs2 tasks gene).2 := by
  refine ⟨?_, rfl⟩
  unfold run_regression_EBIC_SS
  dsimp only
  rw [List.map_filterMap, List.map_filterMap]
  refine congrArg (fun f => List.filterMap f tasks) ?_
  funext k
  by_cases hc : ((getCol (run_regression_outW X Y) k).map
      (fun w => decide (w ≠ 0))).any (fun b => b) = true
  · rw [if_pos hc, if_pos hc]
    rfl
  · rw [if_neg hc, if_neg hc]

/-! ### Claim C10: which tasks appear in the output mapping -/

/-- A weight column has a set entry exactly when some row has a nonzero
entry in that column. -/
lemma col_any_ne_zero (W : Mat ℝ) (k : ℕ) :
    ((((getCol W k).map (fun w => decide (w ≠ 0))).any (fun b => b)) = true
      ↔ ∃ i, i < W.length ∧ getEntry W i k ≠ 0) := by
  rw [List.any_eq_true]
  constructor
  · rintro ⟨b, hb, hbt⟩
    obtain ⟨w, hw, rfl⟩ := List.mem_map.1 hb
    obtain ⟨i, hi, rfl⟩ := List.mem_iff_getElem.1 hw
    refine ⟨i, by simpa [getCol] using hi, ?_⟩
    have hne := of_decide_eq_true hbt
    rwa [← List.getD_eq_getElem _ 0 hi, getCol_getD] at hne
  · rintro ⟨i, hi, hne⟩
    have hil : i < (getCol W k).length := by rwa [length_getCol]
    refine ⟨decide ((getCol W k)[i] ≠ 0), List.mem_map.2 ⟨(getCol W k)[i],
      List.getElem_mem hil, rfl⟩, ?_⟩
    rw [decide_eq_true_eq, ← List.getD_eq_getElem _ 0 hil, getCol_getD]
    exact hne

/-- Claim C10: the mapping returned by `run_regression_EBIC_SS` has an
entry for a task index `k` exactly when `k` is in the input task list
AND column `k` of the selected weight matrix has at least one nonzero
coefficient; a task whose whole column was shrunk to zero is silently
absent. -/
theorem run_regression_output_keys (X : List (Mat ℝ)) (Y : List (List ℝ))
    (TFs : List String) (tasks : List ℕ) (gene : String) (k : ℕ) :
    k ∈ ((run_regression_EBIC_SS X Y TFs tasks gene).1).map Prod.fst
      ↔ k ∈ tasks ∧ ∃ i, i < (run_regression_outW X Y).length
          ∧ getEntry (run_regression_outW X Y) i k ≠ 0 := by
  unfold run_regression_EBIC_SS
  dsimp only
  rw [List.map_filterMap]
  constructor
  · intro hmem
    obtain ⟨a, ha, hfa⟩ := List.mem_filterMap.1 hmem
    by_cases hc : ((getCol (run_regression_outW X Y) a).map
        (fun w => decide (w ≠ 0))).any (fun b => b) = true
    · rw [if_pos hc] at hfa
      simp only [Option.map_some', Option.some_inj] at hfa
      subst hfa
      exact ⟨ha, (col_any_ne_zero _ _).1 hc⟩
    · rw [if_neg hc] at hfa
      exact absurd hfa (by simp)
  · rintro ⟨hk, i, hi, hne⟩
    refine List.mem_filterMap.2 ⟨k, hk, ?_⟩
    rw [if_pos ((col_any_ne_zero _ _).2 ⟨i, hi, hne⟩)]
    rfl


/-! ### Claim C5: the model-selection grid search -/

/-- A fold over a flattened list of lists is the nested fold. -/
lemma foldl_flatMap {β γ δ : Type} (l : List β) (g : β → List γ) (f : δ → γ → δ) :
    ∀ b : δ, (l.flatMap g).foldl f b = l.foldl (fun acc x => (g x).foldl f acc) b := by
  induction l with
  | nil => intro b; rfl
  | cons x xs ih =>
    intro b
    rw [List.flatMap_cons, List.foldl_append, List.foldl_cons, ih]

/-- The nested grid loops are the linear fold over the 200 traversal
pairs. -/
lemma run_grid_eq_foldl (n_tasks n_preds : ℕ) (X : List (Mat ℝ)) (Y : List (List ℝ))
    (C : Mat ℝ) (D : List (Mat ℝ)) (n_samples : List ℕ) (init : GridState) :
    run_grid n_tasks n_preds X Y C D n_samples init
      = (grid_lams n_tasks n_preds n_samples).foldl
          (grid_point_step n_tasks n_preds X Y C D n_samples) init := by
  unfold run_grid grid_lams
  rw [foldl_flatMap]
  refine foldl_congr_mem _ _ _ init (fun st c _ => ?_)
  rw [List.foldl_map]

/-- The chain has one evaluation per traversal pair. -/
lemma grid_evals_length (n_tasks n_preds : ℕ) (X : List (Mat ℝ)) (Y : List (List ℝ))
    (C : Mat ℝ) (D : List (Mat ℝ)) (n_samples : List ℕ) :
    ∀ (lams : List (ℝ × ℝ)) (SB : Mat ℝ × Mat ℝ),
      (grid_evals n_tasks n_preds X Y C D n_samples SB lams).length = lams.length := by
  intro lams
  induction lams with
  | nil => intro SB; rfl
  | cons lam rest ih =>
    intro SB
    simp only [grid_evals, List.length_cons]
    rw [ih]

/-- The best-so-far component of the grid fold is the minimum fold of
the warm-started evaluation chain. -/
lemma run_grid_best_decompose (n_tasks n_preds : ℕ) (X : List (Mat ℝ))
    (Y : List (List ℝ)) (C : Mat ℝ) (D : List (Mat ℝ)) (n_samples : List ℕ) :
    ∀ (lams : List (ℝ × ℝ)) (st : GridState),
      (lams.foldl (grid_point_step n_tasks n_preds X Y C D n_samples) st).best
        = (grid_evals n_tasks n_preds X Y C D n_samples (st.S, st.B) lams).foldl
            best_step st.best := by
  intro lams
  induction lams with
  | nil => intro st; rfl
  | cons lam rest ih =>
    intro st
    simp only [List.foldl_cons, grid_evals]
    exact ih _

/-- Scanning the minimum fold from a known accumulator: either the
accumulator survives and bounds every score, or the result is the
first strict improvement, minimal over the whole list, strictly below
everything before it. -/
lemma best_step_foldl_some (l : List (ℝ × ℝ × ℝ × Mat ℝ)) :
    ∀ (b : ℝ × ℝ × ℝ × Mat ℝ),
      (l.foldl best_step (some b) = some b ∧
        ∀ m, m < l.length → b.1 ≤ (l.getD m (0, 0, 0, [])).1) ∨
      (∃ i, i < l.length ∧ l.foldl best_step (some b) = some (l.getD i (0, 0, 0, [])) ∧
        (l.getD i (0, 0, 0, [])).1 < b.1 ∧
        (∀ m, m < l.length → (l.getD i (0, 0, 0, [])).1 ≤ (l.getD m (0, 0, 0, [])).1) ∧
        (∀ m, m < i → (l.getD i (0, 0, 0, [])).1 < (l.getD m (0, 0, 0, [])).1)) := by
  induction l with
  | nil => intro b; left; exact ⟨rfl, fun m hm => by simp at hm⟩
  | cons x xs ih =>
    intro b
    rw [List.foldl_cons]
    by_cases hc : x.1 < b.1
    · rw [show best_step (some b) x = some x from by simp [best_step, hc]]
      rcases ih x with ⟨heq, hall⟩ | ⟨i, hi, heq, hlt, hall, hfirst⟩
      · right
        refine ⟨0, by simp, by simpa using heq, by simpa using hc, ?_, fun m hm => by omega⟩
        intro m hm
        rcases m with _ | m'
        · simp
        · rw [List.getD_cons_zero, List.getD_cons_succ]
          exact hall m' (by simpa using hm)
      · right
        refine ⟨i + 1, by simpa using hi, by simpa [List.getD_cons_succ] using heq,
          ?_, ?_, ?_⟩
        · rw [List.getD_cons_succ]
          exact lt_trans hlt hc
        · intro m hm
          rcases m with _ | m'
          · rw [List.getD_cons_succ, List.getD_cons_zero]
            exact le_of_lt hlt
          · rw [List.getD_cons_succ, List.getD_cons_succ]
            exact hall m' (by simpa using hm)
        · intro m hm
          rcases m with _ | m'
          · rw [List.getD_cons_succ, List.getD_cons_zero]
            exact hlt
          · rw [List.getD_cons_succ, List.getD_cons_succ]
            exact hfirst m' (by omega)
    · rw [show best_step (some b) x = some b from by simp [best_step, hc]]
      rcases ih b with ⟨heq, hall⟩ | ⟨i, hi, heq, hlt, hall, hfirst⟩
      · left
        refine ⟨heq, ?_⟩
        intro m hm
        rcases m with _ | m'
        · rw [List.getD_cons_zero]
          exact not_lt.1 hc
        · rw [List.getD_cons_succ]
          exact hall m' (by simpa using hm)
      · right
        refine ⟨i + 1, by simpa using hi, by simpa [List.getD_cons_succ] using heq,
          ?_, ?_, ?_⟩
        · rw [List.getD_cons_succ]
          exact hlt
        · intro m hm
          rcases m with _ | m'
          · rw [List.getD_cons_succ, List.getD_cons_zero]
            exact le_of_lt (lt_of_lt_of_le hlt (not_lt.1 hc))
          · rw [List.getD_cons_succ, List.getD_cons_succ]
            exact hall m' (by simpa using hm)
        · intro m hm
          rcases m with _ | m'
          · rw [List.getD_cons_succ, List.getD_cons_zero]
            exact lt_of_lt_of_le hlt (not_lt.1 hc)
          · rw [List.getD_cons_succ, List.getD_cons_succ]
            exact hfirst m' (by omega)

/-- The minimum fold from the `Inf` start returns the first-encountered
minimum of a nonempty list. -/
lemma best_step_foldl_first_min (l : List (ℝ × ℝ × ℝ × Mat ℝ)) (hl : l ≠ []) :
    ∃ i, i < l.length ∧ l.foldl best_step none = some (l.getD i (0, 0, 0, [])) ∧
      (∀ m, m < l.length → (l.getD i (0, 0, 0, [])).1 ≤ (l.getD m (0, 0, 0, [])).1) ∧
      (∀ m, m < i → (l.getD i (0, 0, 0, [])).1 < (l.getD m (0, 0, 0, [])).1) := by
  rcases l with _ | ⟨x, xs⟩
  · exact absurd rfl hl
  · rw [List.foldl_cons, show best_step none x = some x from rfl]
    rcases best_step_foldl_some xs x with ⟨heq, hall⟩ | ⟨i, hi, heq, hltx, hall, hfirst⟩
    · refine ⟨0, by simp, by simpa using heq, ?_, fun m hm => by omega⟩
      intro m hm
      rcases m with _ | m'
      · simp
      · rw [List.getD_cons_zero, List.getD_cons_succ]
        exact hall m' (by simpa using hm)
    · refine ⟨i + 1, by simpa using hi, by simpa [List.getD_cons_succ] using heq, ?_, ?_⟩
      · intro m hm
        rcases m with _ | m'
        · rw [List.getD_cons_succ, List.getD_cons_zero]
          exact le_of_lt hltx
        · rw [List.getD_cons_succ, List.getD_cons_succ]
          exact hall m' (by simpa using hm)
      · intro m hm
        rcases m with _ | m'
        · rw [List.getD_cons_succ, List.getD_cons_zero]
          exact hltx
        · rw [List.getD_cons_succ, List.getD_cons_succ]
          exact hfirst m' (by omega)


/-- Claim C5: the ModelSelector evaluates the solver at every pair of
the outer grid of exactly 20 log-spaced `lamB` multipliers of the
baseline `lamBparam = sqrt(n_tasks * log(n_features) / mean(n_samples))`
and the inner grid of exactly 10 linearly spaced `lamS` multipliers in
`[0.51, 0.99]` of the current `lamB` — 200 grid points in all — warm
starting `S` and `B` sequentially from the previous grid point across
the whole traversal (`grid_evals` threads the solver state through the
chain), and keeps the evaluation whose EBIC score is the minimum over
all 200 points, ties broken in favour of the first-encountered minimum
in traversal order (the comparison with the running minimum is
strict). -/
theorem model_selector_characterization (n_tasks n_preds : ℕ) (X : List (Mat ℝ))
    (Y : List (List ℝ)) (C : Mat ℝ) (D : List (Mat ℝ)) (n_samples : List ℕ)
    (S0 B0 : Mat ℝ) :
    Cs_grid.length = 20 ∧ Ss_grid.length = 10 ∧
    (grid_lams n_tasks n_preds n_samples).length = 200 ∧
    lamBparam n_tasks n_preds n_samples
      = Real.sqrt (((n_tasks : ℝ) * Real.log (n_preds : ℝ))
          / npMean (n_samples.map (fun n => (n : ℝ)))) ∧
    grid_lams n_tasks n_preds n_samples
      = Cs_grid.flatMap (fun c => Ss_grid.map (fun s =>
          (c * lamBparam n_tasks n_preds n_samples,
           s * (c * lamBparam n_tasks n_preds n_samples)))) ∧
    run_grid n_tasks n_preds X Y C D n_samples ⟨none, S0, B0⟩
      = (grid_lams n_tasks n_preds n_samples).foldl
          (grid_point_step n_tasks n_preds X Y C D n_samples) ⟨none, S0, B0⟩ ∧
    (∀ (SB : Mat ℝ × Mat ℝ) (lam : ℝ × ℝ) (rest : List (ℝ × ℝ)),
      grid_evals n_tasks n_preds X Y C D n_samples SB (lam :: rest)
        = (ebic X Y (fit n_tasks n_preds X Y lam.1 lam.2 (some C) (some D)
              (some SB.1) (some SB.2)).1 n_tasks n_samples n_preds, lam.1, lam.2,
           (fit n_tasks n_preds X Y lam.1 lam.2 (some C) (some D)
              (some SB.1) (some SB.2)).1)
          :: grid_evals n_tasks n_preds X Y C D n_samples
              ((fit n_tasks n_preds X Y lam.1 lam.2 (some C) (some D)
                  (some SB.1) (some SB.2)).2.1,
               (fit n_tasks n_preds X Y lam.1 lam.2 (some C) (some D)
                  (some SB.1) (some SB.2)).2.2) rest) ∧
    (∃ i, i < 200 ∧
      (run_grid n_tasks n_preds X Y C D n_samples ⟨none, S0, B0⟩).best
        = some ((grid_evals n_tasks n_preds X Y C D n_samples (S0, B0)
            (grid_lams n_tasks n_preds n_samples)).getD i (0, 0, 0, [])) ∧
      (∀ m, m < 200 →
        ((grid_evals n_tasks n_preds X Y C D n_samples (S0, B0)
            (grid_lams n_tasks n_preds n_samples)).getD i (0, 0, 0, [])).1
          ≤ ((grid_evals n_tasks n_preds X Y C D n_samples (S0, B0)
              (grid_lams n_tasks n_preds n_samples)).getD m (0, 0, 0, [])).1) ∧
      (∀ m, m < i →
        ((grid_evals n_tasks n_preds X Y C D n_samples (S0, B0)
            (grid_lams n_tasks n_preds n_samples)).getD i (0, 0, 0, [])).1
          < ((grid_evals n_tasks n_preds X Y C D n_samples (S0, B0)
              (grid_lams n_tasks n_preds n_samples)).getD m (0, 0, 0, [])).1)) := by
  have hCs : Cs_grid.length = 20 := by
    rw [Cs_grid, List.length_reverse, List.length_map, List.length_range]
  have hSs : Ss_grid.length = 10 := by
    rw [Ss_grid, List.length_reverse, List.length_map, List.length_range]
  have hlams : (grid_lams n_tasks n_preds n_samples).length = 200 := by
    rw [grid_lams, List.length_flatMap]
    have hmap : List.map (List.length ∘ fun c => Ss_grid.map (fun s =>
        (c * lamBparam n_tasks n_preds n_samples,
         s * (c * lamBparam n_tasks n_preds n_samples)))) Cs_grid
        = List.map (fun _ => 10) Cs_grid := by
      refine List.map_congr_left fun c _ => ?_
      simp [Function.comp, hSs]
    rw [hmap, List.map_const', List.sum_replicate, hCs]
    norm_num
  have hlen_evals : (grid_evals n_tasks n_preds X Y C D n_samples (S0, B0)
      (grid_lams n_tasks n_preds n_samples)).length = 200 := by
    rw [grid_evals_length, hlams]
  refine ⟨hCs, hSs, hlams, rfl, rfl,
    run_grid_eq_foldl n_tasks n_preds X Y C D n_samples _, fun SB lam rest => rfl, ?_⟩
  have hne : grid_evals n_tasks n_preds X Y C D n_samples (S0, B0)
      (grid_lams n_tasks n_preds n_samples) ≠ [] := by
    intro hnil
    rw [hnil] at hlen_evals
    simp at hlen_evals
  obtain ⟨i, hi, heq, hall, hfirst⟩ := best_step_foldl_first_min _ hne
  refine ⟨i, by rwa [hlen_evals] at hi, ?_, ?_, hfirst⟩
  · rw [run_grid_eq_foldl n_tasks n_preds X Y C D n_samples,
      run_grid_best_decompose n_tasks n_preds X Y C D n_samples]
    exact heq
  · intro m hm
    exact hall m (by rwa [hlen_evals])

/-- Witness for C5: the characterization applied to concrete (empty)
data, where everything is still a genuine 200-point traversal. -/
theorem model_selector_characterization_witness :
    Cs_grid.length = 20 ∧ Ss_grid.length = 10 ∧
    (grid_lams 1 1 [1]).length = 200 ∧
    lamBparam 1 1 [1]
      = Real.sqrt ((((1 : ℕ) : ℝ) * Real.log ((1 : ℕ) : ℝ))
          / npMean (([1] : List ℕ).map (fun n => (n : ℝ)))) ∧
    grid_lams 1 1 [1]
      = Cs_grid.flatMap (fun c => Ss_grid.map (fun s =>
          (c * lamBparam 1 1 [1], s * (c * lamBparam 1 1 [1])))) ∧
    run_grid 1 1 [] [] [] [] [1] ⟨none, [[0]], [[0]]⟩
      = (grid_lams 1 1 [1]).foldl (grid_point_step 1 1 [] [] [] [] [1])
          ⟨none, [[0]], [[0]]⟩ ∧
    (∀ (SB : Mat ℝ × Mat ℝ) (lam : ℝ × ℝ) (rest : List (ℝ × ℝ)),
      grid_evals 1 1 [] [] [] [] [1] SB (lam :: rest)
        = (ebic [] [] (fit 1 1 [] [] lam.1 lam.2 (some []) (some [])
              (some SB.1) (some SB.2)).1 1 [1] 1, lam.1, lam.2,
           (fit 1 1 [] [] lam.1 lam.2 (some []) (some [])
              (some SB.1) (some SB.2)).1)
          :: grid_evals 1 1 [] [] [] [] [1]
              ((fit 1 1 [] [] lam.1 lam.2 (some []) (some [])
                  (some SB.1) (some SB.2)).2.1,
               (fit 1 1 [] [] lam.1 lam.2 (some []) (some [])
                  (some SB.1) (some SB.2)).2.2) rest) ∧
    (∃ i, i < 200 ∧
      (run_grid 1 1 [] [] [] [] [1] ⟨none, [[0]], [[0]]⟩).best
        = some ((grid_evals 1 1 [] [] [] [] [1] ([[0]], [[0]])
            (grid_lams 1 1 [1])).getD i (0, 0, 0, [])) ∧
      (∀ m, m < 200 →
        ((grid_evals 1 1 [] [] [] [] [1] ([[0]], [[0]])
            (grid_lams 1 1 [1])).getD i (0, 0, 0, [])).1
          ≤ ((grid_evals 1 1 [] [] [] [] [1] ([[0]], [[0]])
              (grid_lams 1 1 [1])).getD m (0, 0, 0, [])).1) ∧
      (∀ m, m < i →
        ((grid_evals 1 1 [] [] [] [] [1] ([[0]], [[0]])
            (grid_lams 1 1 [1])).getD i (0, 0, 0, [])).1
          < ((grid_evals 1 1 [] [] [] [] [1] ([[0]], [[0]])
              (grid_lams 1 1 [1])).getD m (0, 0, 0, [])).1)) :=
  model_selector_characterization 1 1 [] [] [] [] [1] [[0]] [[0]]

end Inferelator
